import Mathlib

/-!
ROOTLess: mantissa-truncation and SZ3 codecs, and their benchmark.

A shallow embedding of `src/Compressor.hpp`, `src/TruncCompressor.cpp`,
`src/SZ3Compressor.cpp` and `src/CompressorBenchmark.{hpp,cpp}`, followed by the
properties proved about it.

Conventions of the embedding:

* a `float` is its raw IEEE-754 bit pattern, a natural number below `2 ^ 32`
  (the source reads and writes it through `union { float f; uint32_t u; }`);
* `uint32_t` arithmetic is arithmetic on `Nat` reduced modulo `2 ^ 32`;
* `int` values are `Int`; where the source multiplies or converts in `int`, a
  result outside the range of `int` is undefined behaviour;
* sizes (`size_t`) are natural numbers;
* a `std::map<std::string, std::string>` is an association list searched from
  the front;
* a C++ function that can throw returns `Except Exn _`, and one that can also
  run into undefined behaviour returns `Except Failure _`;
* the zlib and SZ3 entry points, the clock and `std::log10`, which are not part
  of the repository, are parameters of the functions that call them; zlib's
  `uncompress` is also given as a function, `uncompress2`, of what the stream
  inflates to.
-/

namespace ROOTLess

/-! ## 32-bit unsigned arithmetic -/

/-- Modulus of `uint32_t` arithmetic. -/
def UINT32_MOD : Nat := 2 ^ 32

/-- Bitwise complement `~x` on `uint32_t`. -/
def not32 (x : Nat) : Nat := UINT32_MOD - 1 - x % UINT32_MOD

/-- Wrapping addition `a + b` on `uint32_t`. -/
def add32 (a b : Nat) : Nat := (a + b) % UINT32_MOD

/-- Wrapping subtraction `a - b` on `uint32_t`. -/
def sub32 (a b : Nat) : Nat := (a % UINT32_MOD + (UINT32_MOD - b % UINT32_MOD)) % UINT32_MOD

/-- Left shift `a << s` on `uint32_t` (the source only shifts by less than 32). -/
def shl32 (a s : Nat) : Nat := (a <<< s) % UINT32_MOD

/-- Conversion of an `int` to `uint32_t`. -/
def intToU32 (i : Int) : Nat := (i % (2 ^ 32 : Int)).toNat

/-! ## Fields of a binary32 pattern and its exact value -/

/-- Sign bit (bit 31) of a pattern. -/
def signBit (u : Nat) : Nat := u / 2 ^ 31 % 2

/-- Biased exponent field (bits 30..23) of a pattern. -/
def expField (u : Nat) : Nat := u / 2 ^ 23 % 256

/-- Mantissa field (bits 22..0) of a pattern. -/
def mantField (u : Nat) : Nat := u % 2 ^ 23

/-- Exact rational value of a pattern whose exponent field is below 255
(IEEE-754 binary32: subnormal when the exponent field is 0, normal otherwise).
Patterns with exponent field 255 are infinities and NaNs and have no rational
value; the formula is not used for them. -/
def floatValue (u : Nat) : ℚ :=
  (if signBit u = 1 then -1 else 1) *
    (if expField u = 0 then (mantField u : ℚ) * (2 : ℚ) ^ (-149 : Int)
     else ((2 : ℚ) ^ 23 + (mantField u : ℚ)) * (2 : ℚ) ^ ((expField u : Int) - 150))

/-- Mean of the absolute differences between the exact values of two pattern
sequences, in rational arithmetic. -/
def meanAbsError (original decoded : List Nat) : ℚ :=
  (List.zipWith (fun x t => |floatValue t - floatValue x|) original decoded).sum /
    (original.length : ℚ)

/-! ## `Compressor.hpp` -/

/-- The exceptions thrown by the codecs, with their message. -/
inductive Exn where
  | invalid_argument (msg : String)
  | out_of_range (msg : String)
  | runtime_error (msg : String)
  deriving DecidableEq, Repr

/-- A `std::map<std::string, std::string>`. -/
abbrev ConfigMap := List (String × String)

/-- The call `config.find(key)`: `none` stands for `config.end()`. -/
def ConfigMap.find (config : ConfigMap) (key : String) : Option String :=
  List.lookup key config

/-- The struct `CompressedData`. Bytes are natural numbers below 256. -/
structure CompressedData where
  data : List Nat
  numFloats : Nat
  compressorConfig : ConfigMap
  deriving DecidableEq, Repr

/-! ## Standard-library conversions -/

/-- The characters skipped by `strtol` before the number (`isspace` in the C locale). -/
def isspace (c : Char) : Bool :=
  c.toNat = 32 || (9 ≤ c.toNat && c.toNat ≤ 13)

/-- Value of a run of decimal digits. -/
def digitsValue (ds : List Char) : Nat :=
  ds.foldl (fun acc d => 10 * acc + (d.toNat - 48)) 0

/-- The call `std::stoi(str)`: leading white space, an optional sign and the
longest run of decimal digits are read and what follows is ignored;
`invalid_argument` when there is no digit, `out_of_range` when the value is not
an `int`. -/
def stoi (str : String) : Except Exn Int :=
  let s := str.toList.dropWhile isspace
  let negative := s.head? = some (Char.ofNat 45)
  let rest := if s.head? = some (Char.ofNat 45) ∨ s.head? = some (Char.ofNat 43) then s.tail else s
  let ds := rest.takeWhile Char.isDigit
  if ds.isEmpty then .error (.invalid_argument "stoi")
  else
    let v : Int := if negative then -(digitsValue ds : Int) else (digitsValue ds : Int)
    if v < -2147483648 ∨ v > 2147483647 then .error (.out_of_range "stoi")
    else .ok v

/-- The call `std::to_string(int)`. -/
def to_string (i : Int) : String := toString i

/-! ## zlib -/

/-- The zlib entry points used by `TruncCompressor`. `compress2 source destCap level`
is the content written to the destination buffer when the call returns `Z_OK`
and `none` otherwise; `uncompress source destCap` likewise. -/
structure Zlib where
  compressBound : Nat → Nat
  compress2 : List Nat → Nat → Int → Option (List Nat)
  uncompress : List Nat → Nat → Option (List Nat)

/-- The zlib constant `Z_BEST_COMPRESSION`. -/
def Z_BEST_COMPRESSION : Int := 9

/-- Inflate inverts deflate: at every zlib level, deflating a buffer into a
destination of `compressBound` bytes succeeds, and inflating the result into a
destination of the original size gives the buffer back. -/
def Zlib.InflateInvertsDeflate (z : Zlib) : Prop :=
  ∀ (source : List Nat) (level : Int), -1 ≤ level → level ≤ 9 →
    ∃ out, z.compress2 source (z.compressBound source.length) level = some out ∧
      z.uncompress out source.length = some source

/-- A zlib that stores its input unchanged, whatever the level. -/
def storedZlib : Zlib where
  compressBound := fun n => n + 13
  compress2 := fun source destCap _ => if source.length ≤ destCap then some source else none
  uncompress := fun source destCap => if source.length ≤ destCap then some source else none

/-- A zlib whose deflate output is the level it was called with, as one byte. -/
def levelEchoZlib : Zlib where
  compressBound := fun n => n + 13
  compress2 := fun _ _ level => some [level.toNat]
  uncompress := fun _ _ => none

/-- The function `uncompress` of zlib (`uncompress2` in `uncompr.c`), over the
stream decoder `inflate`, which gives the whole content of a complete, valid
stream and `none` for a corrupt or truncated one. The destination has `destLen`
bytes; for `destLen = 0` zlib inflates into a buffer of one byte of its own and
leaves the destination and `*destLen` as they are. The call returns `Z_OK`
exactly when the end of the stream is reached within the room there is; the
value is then what the destination holds, `*destLen` bytes. -/
def uncompress2 (inflate : List Nat → Option (List Nat)) (source : List Nat) (destLen : Nat) :
    Option (List Nat) :=
  let left : Nat := if destLen ≠ 0 then destLen else 1
  match inflate source with
  | none => none
  | some content =>
    if content.length ≤ left then (if destLen ≠ 0 then some content else some [])
    else none

/-- The Adler-32 checksum of a byte sequence (RFC 1950). -/
def adler32 (bytes : List Nat) : Nat :=
  let s := bytes.foldl
    (fun (s : Nat × Nat) b => ((s.1 + b) % 65521, (s.2 + (s.1 + b) % 65521) % 65521)) (1, 0)
  s.2 * 65536 + s.1

/-- The content of a run of stored deflate blocks (RFC 1951, section 3.2.4) and
the bytes that follow the final block. A stored block is a byte whose bit 0 is
`BFINAL` and whose bits 1 and 2 are `BTYPE = 00`, then `LEN` and its
complement `NLEN`, two bytes each with the low byte first, then `LEN` bytes of
content. `none` when a block is not a stored one, has a wrong `NLEN` or is cut
short; `fuel` bounds the number of blocks. -/
def storedBlocks : Nat → List Nat → Option (List Nat × List Nat)
  | fuel + 1, header :: len0 :: len1 :: nlen0 :: nlen1 :: rest =>
    if header / 2 % 4 ≠ 0 then none
    else if nlen0 + 256 * nlen1 + (len0 + 256 * len1) ≠ 65535 then none
    else if rest.length < len0 + 256 * len1 then none
    else if header % 2 = 1 then
      some (rest.take (len0 + 256 * len1), rest.drop (len0 + 256 * len1))
    else
      match storedBlocks fuel (rest.drop (len0 + 256 * len1)) with
      | none => none
      | some (more, after) => some (rest.take (len0 + 256 * len1) ++ more, after)
  | _, _ => none

/-- What zlib's `inflate` makes of a zlib stream (RFC 1950) whose deflate blocks
are all stored blocks: the header bytes `CMF` and `FLG` (method 8, window of at
most 32K, `CMF * 256 + FLG` a multiple of 31, no preset dictionary), the
blocks, and the Adler-32 of the content with the high byte first; bytes after
the checksum are left unread. `none` is a stream that `inflate` rejects or
finds incomplete. Streams with a Huffman-coded block are not covered: this
decoder gives `none` for them. -/
def inflateStored (source : List Nat) : Option (List Nat) :=
  match source with
  | cmf :: flg :: body =>
    if cmf % 16 ≠ 8 ∨ 7 < cmf / 16 ∨ (cmf * 256 + flg) % 31 ≠ 0 ∨ flg / 32 % 2 = 1 then
      none
    else
      match storedBlocks body.length body with
      | some (content, a3 :: a2 :: a1 :: a0 :: _) =>
        if a3 * 16777216 + a2 * 65536 + a1 * 256 + a0 = adler32 content then some content
        else none
      | _ => none
  | _ => none

/-! ## Floats as bytes -/

/-- The four bytes of a float in memory (little-endian). -/
def floatBytes (u : Nat) : List Nat :=
  [u % 256, u / 256 % 256, u / 65536 % 256, u / 16777216 % 256]

/-- The buffer `reinterpret_cast<const uint8_t*>(v.data())` of `4 * v.size()` bytes. -/
def floatsToBytes : List Nat → List Nat
  | [] => []
  | u :: rest => floatBytes u ++ floatsToBytes rest

/-- The floats held by a byte buffer whose length is a multiple of four. -/
def bytesToFloats : List Nat → List Nat
  | b0 :: b1 :: b2 :: b3 :: rest =>
      (b0 + 256 * b1 + 65536 * b2 + 16777216 * b3) :: bytesToFloats rest
  | _ => []

/-! ## `TruncCompressor.cpp` -/

/-- Body of the loop of `truncate_mantissas` for one value. -/
def truncate_one (u : Nat) (mantissaBits : Int) : Nat :=
  if mantissaBits < 23 then
    let shift : Nat := intToU32 (23 - mantissaBits)
    let mask : Nat := not32 (sub32 (shl32 1 shift) 1)
    let round_bit : Nat := shl32 1 (sub32 shift 1)
    let u1 := add32 u round_bit
    u1 &&& (0xFF800000 ||| mask)
  else u

/-- `TruncCompressor::truncate_mantissas`. -/
def truncate_mantissas (values : List Nat) (mantissaBits : Int) : List Nat :=
  if mantissaBits < 0 ∨ mantissaBits > 23 then values
  else values.map (fun value => truncate_one value mantissaBits)

/-- The data members of `TruncCompressor`. -/
structure TruncCompressor where
  mantissaBits_ : Int
  compressionLevel_ : Int
  deriving DecidableEq, Repr

namespace TruncCompressor

/-- The member initialisers of the class: `mantissaBits_ = 8`,
`compressionLevel_ = Z_BEST_COMPRESSION`. -/
def initial : TruncCompressor := ⟨8, Z_BEST_COMPRESSION⟩

/-- `TruncCompressor::setMantissaBits`. -/
def setMantissaBits (c : TruncCompressor) (mantissaBits : Int) : Except Exn TruncCompressor :=
  if mantissaBits < 0 ∨ mantissaBits > 23 then
    .error (.invalid_argument "mantissaBits must be in [0,23]")
  else .ok { c with mantissaBits_ := mantissaBits }

/-- `TruncCompressor::getMantissaBits`. -/
def getMantissaBits (c : TruncCompressor) : Int := c.mantissaBits_

/-- `TruncCompressor::setCompressionLevel`. -/
def setCompressionLevel (c : TruncCompressor) (level : Int) : Except Exn TruncCompressor :=
  if level < 0 ∨ level > 9 then
    .error (.invalid_argument "compressionLevel must be in [0,9]")
  else .ok { c with compressionLevel_ := level }

/-- `TruncCompressor::getCompressionLevel`. -/
def getCompressionLevel (c : TruncCompressor) : Int := c.compressionLevel_

/-- `TruncCompressor::TruncCompressor(int compressionLevel, int mantissaBits)`. -/
def new (compressionLevel mantissaBits : Int) : Except Exn TruncCompressor := do
  let c ← setCompressionLevel initial compressionLevel
  setMantissaBits c mantissaBits

/-- `TruncCompressor::TruncCompressor(const std::map<std::string, std::string>&)`. -/
def fromConfig (config : ConfigMap) : Except Exn TruncCompressor :=
  match config.find "compressionLevel" with
  | none => .error (.invalid_argument "compressionLevel is required in TruncCompressor config")
  | some sl => do
    let level ← stoi sl
    let c ← setCompressionLevel initial level
    match config.find "mantissaBits" with
    | none => .error (.invalid_argument "mantissaBits is required in TruncCompressor config")
    | some sm => do
      let bits ← stoi sm
      setMantissaBits c bits

/-- `TruncCompressor::getConfig`; the entries are listed in key order, as a
`std::map` holds them. -/
def getConfig (c : TruncCompressor) : ConfigMap :=
  [("compressionLevel", to_string c.compressionLevel_),
   ("mantissaBits", to_string c.mantissaBits_)]

/-- `TruncCompressor::compress`. -/
def compress (z : Zlib) (c : TruncCompressor) (data : List Nat) : Except Exn CompressedData :=
  let truncated := truncate_mantissas data c.mantissaBits_
  let input := floatsToBytes truncated
  let input_size := truncated.length * 4
  match z.compress2 input (z.compressBound input_size) Z_BEST_COMPRESSION with
  | none => .error (.runtime_error "zlib compress2 failed")
  | some output => .ok ⟨output, data.length, c.getConfig⟩

/-- `TruncCompressor::decompress`. The output buffer has `numFloats * 4` bytes;
when the function returns, `uncompress` has written all of them. -/
def decompress (z : Zlib) (compressedData : CompressedData) : Except Exn (List Nat) :=
  match z.uncompress compressedData.data (compressedData.numFloats * 4) with
  | none => .error (.runtime_error "zlib uncompress failed")
  | some inflated =>
    if inflated.length ≠ compressedData.numFloats * 4 then
      .error (.runtime_error "Decompressed size mismatch")
    else .ok (bytesToFloats inflated)

end TruncCompressor

/-! ## `SZ3Compressor.cpp` -/

/-- A `double`: a NaN, an infinity, or a finite value, which is a rational number. -/
inductive F64 where
  | nan
  | inf (negative : Bool)
  | finite (value : ℚ)
  deriving DecidableEq

/-- The comparison `x <= 0` on `double`; it is false for a NaN. -/
def F64.leZero : F64 → Bool
  | .nan => false
  | .inf negative => negative
  | .finite value => decide (value ≤ 0)

/-- The fields of `SZ3::Config` that `makeConfig` sets. An error bound that
`makeConfig` does not assign keeps the default of the library, written `none`. -/
structure SZ3Config where
  dims : List Nat
  dataType : Int
  cmprAlgo : Int
  errorBoundMode : Int
  absErrorBound : Option F64
  relErrorBound : Option F64
  deriving DecidableEq

/-- What `SZ3Compressor.cpp` takes from outside the repository: the enumerators
of `SZ3::ALGO` and `SZ3::EB` it names, the constant `SZ_FLOAT`, the entry points
`SZ_compress` and `SZ_decompress` (`none` for a null pointer), and the standard conversions
`std::stod` and `std::to_string(double)`. -/
structure SZ3Env where
  ALGO_LORENZO_REG : Int
  ALGO_INTERP_LORENZO : Int
  ALGO_INTERP : Int
  ALGO_NOPRED : Int
  ALGO_LOSSLESS : Int
  EB_ABS : Int
  EB_REL : Int
  SZ_FLOAT : Int
  SZ_compress : SZ3Config → List Nat → Option (List Nat)
  SZ_decompress : SZ3Config → List Nat → Option (List Nat)
  stod : String → Except Exn F64
  to_string_double : F64 → String

/-- A sample environment: the enumerators numbered in declaration order, an
`SZ_compress` that returns the bytes of its input and an `SZ_decompress` that
reads them back, a `stod` that reads integers
and a fixed rendering of error bounds. -/
def sampleSZ3Env : SZ3Env where
  ALGO_LORENZO_REG := 0
  ALGO_INTERP_LORENZO := 1
  ALGO_INTERP := 2
  ALGO_NOPRED := 3
  ALGO_LOSSLESS := 4
  EB_ABS := 0
  EB_REL := 1
  SZ_FLOAT := 0
  SZ_compress := fun _ data => some (floatsToBytes data)
  SZ_decompress := fun _ cmpData => some (bytesToFloats cmpData)
  stod := fun s => match stoi s with
    | .ok i => .ok (.finite (i : ℚ))
    | .error e => .error e
  to_string_double := fun _ => "1.000000"

/-- The data members of `SZ3Compressor` that the code reads or writes
(`interpAlgo_` is declared and never used). -/
structure SZ3Compressor where
  errorBoundMode_ : Int
  algorithm_ : Int
  errorBound_ : F64
  deriving DecidableEq

namespace SZ3Compressor

/-- `SZ3Compressor::setAlgorithm`. -/
def setAlgorithm (env : SZ3Env) (c : SZ3Compressor) (algorithm : Int) :
    Except Exn SZ3Compressor :=
  if algorithm = env.ALGO_LORENZO_REG ∨ algorithm = env.ALGO_INTERP_LORENZO ∨
      algorithm = env.ALGO_INTERP ∨ algorithm = env.ALGO_NOPRED ∨
      algorithm = env.ALGO_LOSSLESS then
    .ok { c with algorithm_ := algorithm }
  else
    .error (.invalid_argument ("Invalid or unsupported algorithm value: " ++ to_string algorithm))

/-- `SZ3Compressor::getAlgorithm`. -/
def getAlgorithm (c : SZ3Compressor) : Int := c.algorithm_

/-- `SZ3Compressor::setErrorBoundMode`. -/
def setErrorBoundMode (env : SZ3Env) (c : SZ3Compressor) (errorBoundMode : Int) :
    Except Exn SZ3Compressor :=
  if errorBoundMode = env.EB_ABS ∨ errorBoundMode = env.EB_REL then
    .ok { c with errorBoundMode_ := errorBoundMode }
  else
    .error (.invalid_argument
      ("Invalid or unsupported errorBoundMode value: " ++ to_string errorBoundMode))

/-- `SZ3Compressor::getErrorBoundMode`. -/
def getErrorBoundMode (c : SZ3Compressor) : Int := c.errorBoundMode_

/-- `SZ3Compressor::setErrorBound`. -/
def setErrorBound (c : SZ3Compressor) (errorBound : F64) : Except Exn SZ3Compressor :=
  if errorBound.leZero then .error (.invalid_argument "Error bound must be positive")
  else .ok { c with errorBound_ := errorBound }

/-- `SZ3Compressor::getErrorBound`. -/
def getErrorBound (c : SZ3Compressor) : F64 := c.errorBound_

/-- `SZ3Compressor::SZ3Compressor(SZ3::ALGO, SZ3::EB, double)`: the member
initialisers, then the three setters. -/
def new (env : SZ3Env) (algorithm errorBoundMode : Int) (errorBound : F64) :
    Except Exn SZ3Compressor := do
  let c0 : SZ3Compressor := ⟨errorBoundMode, algorithm, errorBound⟩
  let c1 ← setAlgorithm env c0 algorithm
  let c2 ← setErrorBoundMode env c1 errorBoundMode
  setErrorBound c2 errorBound

/-- `SZ3Compressor::SZ3Compressor(const std::map<std::string, std::string>&)`.
The members have no initialiser; `init` holds their indeterminate values. -/
def fromOptions (env : SZ3Env) (init : SZ3Compressor) (options : ConfigMap) :
    Except Exn SZ3Compressor :=
  match options.find "algorithm" with
  | none => .error (.invalid_argument "algorithm is required in SZ3Compressor config")
  | some sa => do
    let a ← stoi sa
    let c1 ← setAlgorithm env init a
    match options.find "errorBoundMode" with
    | none => .error (.invalid_argument "errorBoundMode is required in SZ3Compressor config")
    | some sm => do
      let m ← stoi sm
      let c2 ← setErrorBoundMode env c1 m
      match options.find "errorBoundValue" with
      | none => .error (.invalid_argument "errorBoundValue is required in SZ3Compressor config")
      | some sv => do
        let v ← env.stod sv
        setErrorBound c2 v

/-- `SZ3Compressor::getConfig`; the entries are listed in key order. -/
def getConfig (env : SZ3Env) (c : SZ3Compressor) : ConfigMap :=
  [("algorithm", to_string c.algorithm_),
   ("errorBoundMode", to_string c.errorBoundMode_),
   ("errorBoundValue", env.to_string_double c.errorBound_)]

/-- `SZ3Compressor::makeConfig`. -/
def makeConfig (env : SZ3Env) (c : SZ3Compressor) (dims : List Nat) : SZ3Config :=
  { dims := [dims.headD 0]
    dataType := env.SZ_FLOAT
    cmprAlgo := c.algorithm_
    errorBoundMode := c.errorBoundMode_
    absErrorBound := if c.errorBoundMode_ = env.EB_ABS then some c.errorBound_ else none
    relErrorBound := if c.errorBoundMode_ = env.EB_ABS then none else some c.errorBound_ }

/-- `SZ3Compressor::compress`. -/
def compress (env : SZ3Env) (c : SZ3Compressor) (data : List Nat) : Except Exn CompressedData :=
  let config := makeConfig env c [data.length]
  match env.SZ_compress config data with
  | none => .error (.runtime_error "SZ_compress failed to allocate output buffer")
  | some compressedData => .ok ⟨compressedData, data.length, getConfig env c⟩

end SZ3Compressor

/-! ## Binary floating-point arithmetic

Values of `float` and `double` are both held in `F64` (every `float` value is a
`double` value). The sign of a zero is not represented: a zero divisor is taken
as `+0`. An operation on finite values is the exact rational operation followed
by rounding to the format, to nearest with ties to even. -/

/-- Quotient `n / d` rounded to the nearest integer, ties to the even one. -/
def divRoundHalfEven (n d : Nat) : Nat :=
  if 2 * (n % d) < d then n / d
  else if d < 2 * (n % d) then n / d + 1
  else if n / d % 2 = 0 then n / d else n / d + 1

/-- Number of binary digits of `n`; `fuel` bounds the recursion and `n` itself
is enough. -/
def bitLength : Nat → Nat → Nat
  | 0, _ => 0
  | fuel + 1, n => if n = 0 then 0 else bitLength fuel (n / 2) + 1

/-- The largest `e` with `2 ^ e ≤ n / d`, for positive `n` and `d`. -/
def floorLog2 (n d : Nat) : Int :=
  let e0 : Int := (bitLength n n : Int) - (bitLength d d : Int)
  if 0 ≤ e0 then (if d * 2 ^ e0.toNat ≤ n then e0 else e0 - 1)
  else (if d ≤ n * 2 ^ (-e0).toNat then e0 else e0 - 1)

/-- The value of the binary format with `p` significand bits and exponents
`emin .. emax` nearest to the rational `x`, ties to even; an infinity when the
rounded value exceeds the largest finite one. -/
def roundBinary (p : Nat) (emin emax : Int) (x : ℚ) : F64 :=
  if x.num = 0 then .finite 0
  else
    let n := x.num.natAbs
    let d := x.den
    let k : Int := max (floorLog2 n d) emin - ((p : Int) - 1)
    let m : Nat :=
      if k < 0 then divRoundHalfEven (n * 2 ^ (-k).toNat) d
      else divRoundHalfEven n (d * 2 ^ k.toNat)
    let v : ℚ := (m : ℚ) * (2 : ℚ) ^ k
    if (2 : ℚ) ^ (emax + 1) ≤ v then .inf (decide (x.num < 0))
    else .finite (if x.num < 0 then -v else v)

/-- Rounding to `double` (binary64). -/
def round64 (x : ℚ) : F64 := roundBinary 53 (-1022) 1023 x

/-- Rounding to `float` (binary32). -/
def round32 (x : ℚ) : F64 := roundBinary 24 (-126) 127 x

/-- The value of a `float` given by its bit pattern. -/
def floatToF64 (u : Nat) : F64 :=
  if expField u = 255 then (if mantField u = 0 then .inf (decide (signBit u = 1)) else .nan)
  else .finite (floatValue u)

/-- Addition, with the rounding `rnd` of the format. -/
def F64.add (rnd : ℚ → F64) : F64 → F64 → F64
  | .nan, _ => .nan
  | _, .nan => .nan
  | .inf s, .inf t => if s = t then .inf s else .nan
  | .inf s, .finite _ => .inf s
  | .finite _, .inf t => .inf t
  | .finite x, .finite y => rnd (x + y)

/-- Negation. -/
def F64.neg : F64 → F64
  | .nan => .nan
  | .inf s => .inf (!s)
  | .finite x => .finite (-x)

/-- Subtraction, with the rounding `rnd` of the format. -/
def F64.sub (rnd : ℚ → F64) (a b : F64) : F64 := F64.add rnd a (F64.neg b)

/-- Multiplication, with the rounding `rnd` of the format. -/
def F64.mul (rnd : ℚ → F64) : F64 → F64 → F64
  | .nan, _ => .nan
  | _, .nan => .nan
  | .inf s, .inf t => .inf (s != t)
  | .inf s, .finite y => if y = 0 then .nan else .inf (s != decide (y < 0))
  | .finite x, .inf t => if x = 0 then .nan else .inf (decide (x < 0) != t)
  | .finite x, .finite y => rnd (x * y)

/-- Division, with the rounding `rnd` of the format; a zero divisor is `+0`. -/
def F64.div (rnd : ℚ → F64) : F64 → F64 → F64
  | .nan, _ => .nan
  | _, .nan => .nan
  | .inf _, .inf _ => .nan
  | .inf s, .finite y => .inf (s != decide (y < 0))
  | .finite _, .inf _ => .finite 0
  | .finite x, .finite y =>
      if y = 0 then (if x = 0 then .nan else .inf (decide (x < 0))) else rnd (x / y)

/-- The comparison `a < b`; false when an operand is a NaN. -/
def F64.lt : F64 → F64 → Bool
  | .nan, _ => false
  | _, .nan => false
  | .inf s, .inf t => s && !t
  | .inf s, .finite _ => s
  | .finite _, .inf t => !t
  | .finite x, .finite y => decide (x < y)

/-- The comparison `a != 0`; true for a NaN. -/
def F64.neZero : F64 → Bool
  | .finite x => decide (x ≠ 0)
  | _ => true

/-- `std::abs` on a floating-point value. -/
def F64.abs : F64 → F64
  | .nan => .nan
  | .inf _ => .inf false
  | .finite x => .finite |x|

/-- Conversion of an unsigned integer to `double`. -/
def F64.ofNat (n : Nat) : F64 := round64 (n : ℚ)

/-! ## `std::to_string(double)` and `std::stod` -/

/-- The six digits printed after the decimal point. -/
def sixDigits (r : Nat) : List Char :=
  List.replicate (6 - (Nat.toDigits 10 r).length) (Char.ofNat 48) ++ Nat.toDigits 10 r

/-- The call `std::to_string(double)`, which prints as `printf` does with `%f`:
six digits after the point, the exact value rounded to nearest, ties to even. -/
def std_to_string_double : F64 → String
  | .nan => "nan"
  | .inf negative => if negative then "-inf" else "inf"
  | .finite x =>
      let scaled := divRoundHalfEven (x.num.natAbs * 1000000) x.den
      String.mk ((if x.num < 0 then [Char.ofNat 45] else []) ++
        Nat.toDigits 10 (scaled / 1000000) ++ [Char.ofNat 46] ++ sixDigits (scaled % 1000000))

/-- The exponent part of a floating-point literal: the letter `mark` in either
case (`e` for decimal, `p` for hexadecimal notation), an optional sign and at
least one decimal digit; `0` when there is none. -/
def readExponent (mark : Char) (s : List Char) : Int :=
  match s with
  | c :: t =>
      if c.toLower = mark then
        let negative := t.head? = some (Char.ofNat 45)
        let t1 := if t.head? = some (Char.ofNat 45) ∨ t.head? = some (Char.ofNat 43)
          then t.tail else t
        let ds := t1.takeWhile Char.isDigit
        if ds.isEmpty then 0
        else if negative then -(digitsValue ds : Int) else (digitsValue ds : Int)
      else 0
  | [] => 0

/-- Whether a character is a hexadecimal digit. -/
def isHexDigit (c : Char) : Bool :=
  c.isDigit || (97 ≤ c.toLower.toNat && c.toLower.toNat ≤ 102)

/-- Value of a run of hexadecimal digits. -/
def hexDigitsValue (ds : List Char) : Nat :=
  ds.foldl (fun acc d =>
    16 * acc + (if d.isDigit then d.toNat - 48 else d.toLower.toNat - 87)) 0

/-- Whether the positive value `x` is tiny after rounding: rounded to 53 bits
with no lower bound on the exponent, it is still below the smallest normal
`double`, `2 ^ (-1022)`. (One exponent below the normal range is enough room:
a smaller `x` is below `2 ^ (-1023)` however it is rounded.) -/
def tinyAfterRounding (x : ℚ) : Bool :=
  match roundBinary 53 (-1023) 1023 x with
  | .finite w => decide (w < (2 : ℚ) ^ (-1022 : Int))
  | _ => false

/-- The result of `std::stod` for the exact value `x > 0` of the text read:
`out_of_range` when `strtod` sets `ERANGE`, which it does when the value
overflows, and when it underflows: the rounded result is not `x` and `x` is
tiny after rounding. -/
def stodResult (negative : Bool) (x : ℚ) : Except Exn F64 :=
  match round64 x with
  | .finite v =>
      if tinyAfterRounding x ∧ v ≠ x then .error (.out_of_range "stod")
      else .ok (.finite (if negative then -v else v))
  | _ => .error (.out_of_range "stod")

/-- The digits of a number in base `b` notation: the digits before the point,
the digits after it, and the text that follows them. -/
def readDigits (isDig : Char → Bool) (s : List Char) : List Char × List Char × List Char :=
  let intDigits := s.takeWhile isDig
  let afterInt := s.dropWhile isDig
  if afterInt.head? = some (Char.ofNat 46) then
    (intDigits, afterInt.tail.takeWhile isDig, afterInt.tail.dropWhile isDig)
  else (intDigits, [], afterInt)

/-- The call `std::stod(str)`: leading white space and an optional sign, then
`inf` or `nan` in any case, or hexadecimal digits after `0x` with an optional
point and binary exponent, or decimal digits with an optional point and
exponent; what follows is ignored. `invalid_argument` when no number can be
read; `out_of_range` as in `stodResult`. -/
def std_stod (str : String) : Except Exn F64 :=
  let s := str.toList.dropWhile isspace
  let negative : Bool := s.head? = some (Char.ofNat 45)
  let rest := if s.head? = some (Char.ofNat 45) ∨ s.head? = some (Char.ofNat 43) then s.tail else s
  if (rest.take 3).map Char.toLower = [Char.ofNat 105, Char.ofNat 110, Char.ofNat 102] then
    .ok (.inf negative)
  else if (rest.take 3).map Char.toLower = [Char.ofNat 110, Char.ofNat 97, Char.ofNat 110] then
    .ok .nan
  else
    let hex := readDigits isHexDigit (rest.drop 2)
    if (rest.take 2).map Char.toLower = [Char.ofNat 48, Char.ofNat 120] ∧
        ¬ (hex.1.isEmpty ∧ hex.2.1.isEmpty) then
      let mant := hexDigitsValue (hex.1 ++ hex.2.1)
      if mant = 0 then .ok (.finite 0)
      else
        stodResult negative ((mant : ℚ) * (2 : ℚ) ^
          (readExponent (Char.ofNat 112) hex.2.2 - 4 * (hex.2.1.length : Int)))
    else
      let dec := readDigits Char.isDigit rest
      if dec.1.isEmpty ∧ dec.2.1.isEmpty then .error (.invalid_argument "stod")
      else
        let mant := digitsValue (dec.1 ++ dec.2.1)
        if mant = 0 then .ok (.finite 0)
        else
          stodResult negative ((mant : ℚ) * (10 : ℚ) ^
            (readExponent (Char.ofNat 101) dec.2.2 - (dec.2.1.length : Int)))

/-- The environment of the C++ standard library: `sampleSZ3Env` with `std::stod`
and `std::to_string(double)` as the standard defines them. -/
def stdSZ3Env : SZ3Env :=
  { sampleSZ3Env with stod := std_stod, to_string_double := std_to_string_double }

/-! ## The `Compressor` interface -/

/-- How a call can fail: an exception is thrown, or the behaviour is undefined
(signed overflow, a conversion out of range, an access outside a buffer). -/
inductive Failure where
  | raised (e : Exn)
  | undefined (what : String)
  deriving DecidableEq

/-- The virtual functions of the abstract class `Compressor` that
`CompressorBenchmark` calls. -/
structure Compressor where
  compress : List Nat → Except Failure CompressedData
  decompress : CompressedData → Except Failure (List Nat)

/-- A call that throws, seen through the `Compressor` interface. -/
def liftExn {α : Type} : Except Exn α → Except Failure α
  | .ok a => .ok a
  | .error e => .error (.raised e)

/-- A `TruncCompressor` as a `Compressor`. -/
def TruncCompressor.toCompressor (z : Zlib) (c : TruncCompressor) : Compressor where
  compress := fun data => liftExn (TruncCompressor.compress z c data)
  decompress := fun compressedData => liftExn (TruncCompressor.decompress z compressedData)

/-- `SZ3Compressor::decompress`. `SZ_decompress` gives the buffer it allocated,
`none` for a null pointer; the function copies `numFloats` floats out of it. -/
def SZ3Compressor.decompress (env : SZ3Env) (c : SZ3Compressor) (compressed : CompressedData) :
    Except Failure (List Nat) :=
  let config := SZ3Compressor.makeConfig env c [compressed.numFloats]
  match env.SZ_decompress config compressed.data with
  | none => .error (.raised (.runtime_error "SZ_decompress failed to allocate output buffer"))
  | some dec_data_p =>
    if compressed.numFloats ≤ dec_data_p.length then .ok (dec_data_p.take compressed.numFloats)
    else .error (.undefined "read past the end of the decompressed buffer")

/-- An `SZ3Compressor` as a `Compressor`. -/
def SZ3Compressor.toCompressor (env : SZ3Env) (c : SZ3Compressor) : Compressor where
  compress := fun data => liftExn (SZ3Compressor.compress env c data)
  decompress := fun compressed => SZ3Compressor.decompress env c compressed

/-! ## `CompressorBenchmark` -/

/-- The struct `BenchmarkResult`. -/
structure BenchmarkResult where
  decompressedData : List Nat
  compressionThroughputMBps : F64
  decompressionThroughputMBps : F64
  compressionRatio : F64
  MSE : F64
  PSNR : F64
  meanRelError : F64
  maxRelError : F64
  meanAbsError : F64
  maxAbsError : F64
  KLdivergence : F64
  JSdivergence : F64
  WassersteinDistance : F64
  KSstatistic : F64

/-- What `run` takes from outside the program: the durations, in milliseconds,
that the clock measures for the `compress` and the `decompress` call of each
chunk, and `std::log10`. -/
structure RunEnv where
  compressionTimeMs : Int → F64
  decompressionTimeMs : Int → F64
  log10 : F64 → F64

/-- The data members of `CompressorBenchmark`; `compressor_` is never null once
the constructor has returned. -/
structure CompressorBenchmark where
  compressor_ : Compressor
  chunkSize_ : Int

/-- The accumulators of the loop of `run`. -/
structure LoopState where
  totalCompressionTimeMs : F64
  totalDecompressionTimeMs : F64
  totalCompressedBytes : Nat
  decompressedData : List Nat

/-- Smallest value of `int`. -/
def INT_MIN : Int := -2147483648

/-- Largest value of `int`. -/
def INT_MAX : Int := 2147483647

/-- `std::max_element` over a non-empty range `first :: rest`, with `<` given by `lt`. -/
def maxElement {α : Type} (lt : α → α → Bool) (first : α) (rest : List α) : α :=
  rest.foldl (fun largest x => if lt largest x then x else largest) first

/-- `std::min_element` over a non-empty range `first :: rest`, with `<` given by `lt`. -/
def minElement {α : Type} (lt : α → α → Bool) (first : α) (rest : List α) : α :=
  rest.foldl (fun smallest x => if lt x smallest then x else smallest) first

/-- `std::accumulate(v.begin(), v.end(), 0.0)` over doubles. -/
def accumulate (v : List F64) : F64 :=
  v.foldl (fun acc x => F64.add round64 acc x) (.finite 0)

namespace CompressorBenchmark

/-- The constructor of `CompressorBenchmark`. -/
def new (z : Zlib) (env : SZ3Env) (init : SZ3Compressor) (chunkSize : Int)
    (compressorName : String) (compressorOptions : ConfigMap) :
    Except Exn CompressorBenchmark :=
  if compressorName = "BitTruncation" then
    match TruncCompressor.fromConfig compressorOptions with
    | .ok c => .ok ⟨c.toCompressor z, chunkSize⟩
    | .error e => .error e
  else if compressorName = "SZ3" then
    match SZ3Compressor.fromOptions env init compressorOptions with
    | .ok c => .ok ⟨c.toCompressor env, chunkSize⟩
    | .error e => .error e
  else .error (.invalid_argument ("Unknown compressor: " ++ compressorName))

/-- The value of `numChunks`, `std::ceil(static_cast<double>(totalBytes) / chunkSize_)`
converted to `int`. The quotient of the two integers is taken exactly: below
`2 ^ 53` the rounded quotient of two integers has the ceiling of the exact one.
A zero `chunkSize_` gives an infinite or NaN quotient, whose conversion to `int`
is undefined, as is the conversion of a value outside the range of `int`. -/
def numChunks (totalBytes : Nat) (chunkSize : Int) : Except Failure Int :=
  if chunkSize = 0 then .error (.undefined "conversion of a non-finite double to int")
  else
    let q : Int :=
      if 0 < chunkSize then (((totalBytes + chunkSize.toNat - 1) / chunkSize.toNat : Nat) : Int)
      else -((totalBytes / chunkSize.natAbs : Nat) : Int)
    if q < INT_MIN ∨ INT_MAX < q then .error (.undefined "conversion of a double to int out of range")
    else .ok q

/-- The chunk of index `chunkInx`: lines 38 to 41 of `run`. The product
`chunkInx * chunkSize_` is computed in `int`; the iterators must stay inside
`data`. -/
def chunkAt (data : List Nat) (chunkSize : Int) (chunkInx : Int) : Except Failure (List Nat) :=
  let totalBytes := data.length * 4
  if chunkInx * chunkSize < INT_MIN ∨ INT_MAX < chunkInx * chunkSize then
    .error (.undefined "signed overflow in chunkInx * chunkSize_")
  else
    let offset : Nat := (chunkInx * chunkSize % (2 ^ 64 : Int)).toNat
    let end_ : Nat := min ((offset + (chunkSize % (2 ^ 64 : Int)).toNat) % 2 ^ 64) totalBytes
    let numFloats : Nat := (end_ + 2 ^ 64 - offset) % 2 ^ 64 / 4
    if data.length < offset / 4 + numFloats then
      .error (.undefined "iterator past the end of data")
    else .ok ((data.drop (offset / 4)).take numFloats)

/-- The body of the loop of `run` for the chunk of index `chunkInx`. -/
def loopBody (b : CompressorBenchmark) (env : RunEnv) (data : List Nat) (st : LoopState)
    (chunkInx : Int) : Except Failure LoopState :=
  match chunkAt data b.chunkSize_ chunkInx with
  | .error f => .error f
  | .ok chunk =>
    match b.compressor_.compress chunk with
    | .error f => .error f
    | .ok compressedChunk =>
      match b.compressor_.decompress compressedChunk with
      | .error f => .error f
      | .ok decompressedChunk =>
        .ok { totalCompressionTimeMs :=
                F64.add round64 st.totalCompressionTimeMs (env.compressionTimeMs chunkInx)
              totalDecompressionTimeMs :=
                F64.add round64 st.totalDecompressionTimeMs (env.decompressionTimeMs chunkInx)
              totalCompressedBytes := st.totalCompressedBytes + compressedChunk.data.length
              decompressedData := st.decompressedData ++ decompressedChunk }

/-- The loop `for (chunkInx = ...; chunkInx < numChunks; ++chunkInx)` with
`remaining = numChunks - chunkInx` iterations left. -/
def chunkLoop (b : CompressorBenchmark) (env : RunEnv) (data : List Nat) :
    Nat → Int → LoopState → Except Failure LoopState
  | 0, _, st => .ok st
  | remaining + 1, chunkInx, st =>
    match loopBody b env data st chunkInx with
    | .error f => .error f
    | .ok st1 => chunkLoop b env data remaining (chunkInx + 1) st1

/-- The first part of `run`, up to the end of the loop over the chunks. -/
def runChunks (b : CompressorBenchmark) (env : RunEnv) (data : List Nat) :
    Except Failure LoopState :=
  match numChunks (data.length * 4) b.chunkSize_ with
  | .error f => .error f
  | .ok n => chunkLoop b env data n.toNat 0 ⟨.finite 0, .finite 0, 0, []⟩

/-- The term `(a - b) * (a - b)` of the mean squared error, computed in `float`. -/
def squaredDifference (a b : Nat) : F64 :=
  F64.mul round32 (F64.sub round32 (floatToF64 a) (floatToF64 b))
    (F64.sub round32 (floatToF64 a) (floatToF64 b))

/-- The call of `std::inner_product` in `run`. -/
def innerProduct (data decompressedData : List Nat) : F64 :=
  (List.zip data decompressedData).foldl
    (fun acc p => F64.add round64 acc (squaredDifference p.1 p.2)) (.finite 0)

/-- The entry of `absErrors` for one element. -/
def absError (a b : Nat) : F64 :=
  F64.abs (F64.sub round32 (floatToF64 a) (floatToF64 b))

/-- The entry of `relErrors` for one element. -/
def relError (a b : Nat) : F64 :=
  if (floatToF64 a).neZero then
    F64.div round64 (F64.mul round64 (absError a b) (.finite 100)) (F64.abs (floatToF64 a))
  else .finite 0

/-- Mean of a vector of doubles as `run` computes it. -/
def meanOf (v : List F64) : F64 :=
  if 0 < v.length then F64.div round64 (accumulate v) (F64.ofNat v.length) else .nan

/-- Maximum of a vector of doubles as `run` computes it. -/
def maxOf (v : List F64) : F64 :=
  match v with
  | first :: rest => maxElement F64.lt first rest
  | [] => .nan

/-- The second part of `run`, from the totals left by the loop to the result.
Line 86 dereferences `std::max_element` and `std::min_element` of `data`, which
is undefined when `data` is empty. -/
def metrics (env : RunEnv) (data : List Nat) (returnDecompressed : Bool) (st : LoopState) :
    Except Failure BenchmarkResult :=
  let totalBytes := data.length * 4
  let compressionRatio := F64.div round64 (F64.ofNat totalBytes) (F64.ofNat st.totalCompressedBytes)
  let compressionThroughputMBps :=
    F64.div round64
      (F64.div round64 (F64.ofNat totalBytes)
        (F64.mul round64 st.totalCompressionTimeMs (round64 (1 / 1000))))
      (F64.ofNat (1024 * 1024))
  let decompressionThroughputMBps :=
    F64.div round64
      (F64.div round64 (F64.ofNat totalBytes)
        (F64.mul round64 st.totalDecompressionTimeMs (round64 (1 / 1000))))
      (F64.ofNat (1024 * 1024))
  let mse :=
    if st.decompressedData.length = data.length then
      F64.div round64 (innerProduct data st.decompressedData) (F64.ofNat data.length)
    else .nan
  match data with
  | [] => .error (.undefined "dereference of the end iterator of an empty vector")
  | first :: rest =>
    let valueRange :=
      F64.sub round32 (floatToF64 (maxElement (fun a b => (floatToF64 a).lt (floatToF64 b)) first rest))
        (floatToF64 (minElement (fun a b => (floatToF64 a).lt (floatToF64 b)) first rest))
    let psnr :=
      if F64.lt (.finite 0) mse then
        F64.mul round64 (.finite 20)
          (env.log10 (F64.sub round64 valueRange (F64.mul round64 (.finite 10) (env.log10 mse))))
      else .nan
    let absErrors : List F64 :=
      if st.decompressedData.length = data.length then
        List.zipWith absError data st.decompressedData
      else [.nan]
    let relErrors : List F64 :=
      if st.decompressedData.length = data.length then
        List.zipWith relError data st.decompressedData
      else [.nan]
    .ok { decompressedData := if returnDecompressed then st.decompressedData else []
          compressionThroughputMBps := compressionThroughputMBps
          decompressionThroughputMBps := decompressionThroughputMBps
          compressionRatio := compressionRatio
          MSE := mse
          PSNR := psnr
          meanRelError := meanOf relErrors
          maxRelError := maxOf relErrors
          meanAbsError := meanOf absErrors
          maxAbsError := maxOf absErrors
          KLdivergence := .finite 0
          JSdivergence := .finite 0
          WassersteinDistance := .finite 0
          KSstatistic := .finite 0 }

/-- `CompressorBenchmark::run`. Console output is not modelled. -/
def run (b : CompressorBenchmark) (env : RunEnv) (data : List Nat) (returnDecompressed : Bool) :
    Except Failure BenchmarkResult :=
  match runChunks b env data with
  | .error f => .error f
  | .ok st => metrics env data returnDecompressed st

end CompressorBenchmark

/-- A clock that measures one millisecond for every call, and a `log10` that
is only defined by its value on NaN. -/
def sampleRunEnv : RunEnv where
  compressionTimeMs := fun _ => .finite 1
  decompressionTimeMs := fun _ => .finite 1
  log10 := fun _ => .nan

/-- A call of one of the two setters of `TruncCompressor`, with its argument. -/
inductive SetterCall where
  | setMantissaBits (mantissaBits : Int)
  | setCompressionLevel (level : Int)
  deriving DecidableEq

/-- The object after a setter call: the object the setter leaves when it
returns, and the object as it was when the setter throws (each setter throws
before it assigns). -/
def TruncCompressor.afterCall (c : TruncCompressor) : SetterCall → TruncCompressor
  | .setMantissaBits mantissaBits =>
    match c.setMantissaBits mantissaBits with
    | .ok c1 => c1
    | .error _ => c
  | .setCompressionLevel level =>
    match c.setCompressionLevel level with
    | .ok c1 => c1
    | .error _ => c

/-- The object after a sequence of setter calls, in order. -/
def TruncCompressor.afterCalls (c : TruncCompressor) (calls : List SetterCall) :
    TruncCompressor :=
  calls.foldl TruncCompressor.afterCall c

/-! ## Bit-level lemmas for `truncate_mantissas` -/

theorem and_high_mask (x s : Nat) (hx : x < 2 ^ 32) (hs : s ≤ 32) :
    x &&& (2 ^ 32 - 2 ^ s) = x / 2 ^ s * 2 ^ s := by
  apply Nat.eq_of_testBit_eq
  intro i
  have hpos : 0 < 2 ^ s := Nat.pos_pow_of_pos _ (by norm_num)
  have hle : 2 ^ s ≤ 2 ^ 32 := Nat.pow_le_pow_right (by norm_num) hs
  have h1 : 2 ^ 32 - 2 ^ s = 2 ^ 32 - ((2 ^ s - 1) + 1) := by omega
  have h2 : 2 ^ s - 1 < 2 ^ 32 := by omega
  rw [Nat.testBit_and, h1, Nat.testBit_two_pow_sub_succ h2, Nat.testBit_two_pow_sub_one,
    Nat.mul_comm, Nat.testBit_mul_pow_two, ← Nat.shiftRight_eq_div_pow, Nat.testBit_shiftRight]
  by_cases h32 : i < 32
  · by_cases hi : i < s
    · simp [hi, h32]
    · have : s + (i - s) = i := by omega
      simp [hi, h32, this]
      omega
  · have hxi : x.testBit i = false := by
      apply Nat.testBit_lt_two_pow
      exact lt_of_lt_of_le hx (Nat.pow_le_pow_right (by norm_num) (by omega))
    by_cases hi : i < s
    · simp [hi, h32, hxi]
    · have : s + (i - s) = i := by omega
      simp [hi, h32, this, hxi]

theorem keep_mask_eq (s : Nat) (h1 : 1 ≤ s) (h23 : s ≤ 23) :
    (0xFF800000 ||| not32 (sub32 (shl32 1 s) 1)) = 2 ^ 32 - 2 ^ s := by
  interval_cases s <;> decide

theorem round_bit_eq (s : Nat) (h1 : 1 ≤ s) (h23 : s ≤ 23) :
    shl32 1 (sub32 s 1) = 2 ^ (s - 1) := by
  interval_cases s <;> decide

/-- Closed form of the loop body for `mantissaBits = k < 23`. -/
theorem truncate_one_eq (u k : Nat) (hk : k ≤ 22) :
    truncate_one u (k : Int) = (u + 2 ^ (22 - k)) % 2 ^ 32 / 2 ^ (23 - k) * 2 ^ (23 - k) := by
  have hlt : (k : Int) < 23 := by omega
  have hs : intToU32 (23 - (k : Int)) = 23 - k := by
    unfold intToU32
    omega
  unfold truncate_one
  simp only [hlt, if_true, hs]
  rw [keep_mask_eq _ (by omega) (by omega), round_bit_eq _ (by omega) (by omega)]
  have : 23 - k - 1 = 22 - k := by omega
  rw [this]
  unfold add32 UINT32_MOD
  exact and_high_mask _ _ (Nat.mod_lt _ (by norm_num)) (by omega)

theorem truncate_mantissas_eq_map (values : List Nat) (k : Nat) (hk : k ≤ 23) :
    truncate_mantissas values (k : Int) = values.map (fun u => truncate_one u (k : Int)) := by
  unfold truncate_mantissas
  have : ¬ ((k : Int) < 0 ∨ (k : Int) > 23) := by omega
  rw [if_neg this]

theorem mult_gap (P r m : Nat) (hr : P ∣ r) (hm : P ∣ m) (h : r < m) : r + P ≤ m := by
  have hd : P ∣ m - r := Nat.dvd_sub' hm hr
  have := Nat.le_of_dvd (by omega) hd
  omega

theorem two_pow_pred (s : Nat) (hs : 1 ≤ s) : 2 ^ s = 2 * 2 ^ (s - 1) := by
  obtain ⟨t, rfl⟩ : ∃ t, s = t + 1 := ⟨s - 1, by omega⟩
  simp [pow_succ, Nat.mul_comm]

theorem round_nearest_aux (u h r : Nat) (hdvd : 2 * h ∣ r)
    (hle : r ≤ u + h) (hgt : u + h < r + 2 * h) :
    (∀ m : Nat, 2 * h ∣ m → |(r : Int) - u| ≤ |(m : Int) - u| ∧
      (|(m : Int) - u| = |(r : Int) - u| → m ≤ r)) ∧
    |(r : Int) - u| ≤ (h : Int) := by
  have habs : |(r : Int) - u| ≤ (h : Int) := by
    rw [abs_le]; constructor <;> omega
  refine ⟨?_, habs⟩
  intro m hm
  rcases Nat.lt_trichotomy r m with hlt | heq | hlt
  · have := mult_gap _ _ _ hdvd hm hlt
    have h1 : (h : Int) < |(m : Int) - u| := by
      apply lt_of_lt_of_le _ (le_abs_self _)
      omega
    constructor
    · omega
    · intro he; omega
  · subst heq; simp
  · have := mult_gap _ _ _ hm hdvd hlt
    constructor
    · have h1 : (h : Int) ≤ |(m : Int) - u| := by
        apply le_trans _ (neg_le_abs _)
        omega
      omega
    · intro _; omega

/-- Adding half a step and clearing the low `s` bits rounds to the nearest
multiple of `2 ^ s`, ties upward. -/
theorem round_nearest (u s : Nat) (hs : 1 ≤ s) :
    2 ^ s ∣ (u + 2 ^ (s - 1)) / 2 ^ s * 2 ^ s ∧
    (∀ m : Nat, 2 ^ s ∣ m →
      |(((u + 2 ^ (s - 1)) / 2 ^ s * 2 ^ s : Nat) : Int) - u| ≤ |(m : Int) - u| ∧
      (|(m : Int) - u| = |(((u + 2 ^ (s - 1)) / 2 ^ s * 2 ^ s : Nat) : Int) - u| →
        m ≤ (u + 2 ^ (s - 1)) / 2 ^ s * 2 ^ s)) ∧
    |(((u + 2 ^ (s - 1)) / 2 ^ s * 2 ^ s : Nat) : Int) - u| ≤ ((2 ^ (s - 1) : Nat) : Int) := by
  have hP := two_pow_pred s hs
  have hpos : 0 < 2 ^ (s - 1) := Nat.pos_pow_of_pos _ (by norm_num)
  have hdvd : 2 ^ s ∣ (u + 2 ^ (s - 1)) / 2 ^ s * 2 ^ s := Nat.dvd_mul_left _ _
  have hle : (u + 2 ^ (s - 1)) / 2 ^ s * 2 ^ s ≤ u + 2 ^ (s - 1) := Nat.div_mul_le_self _ _
  have hgt : u + 2 ^ (s - 1) < (u + 2 ^ (s - 1)) / 2 ^ s * 2 ^ s + 2 ^ s := by
    have := Nat.div_add_mod (u + 2 ^ (s - 1)) (2 ^ s)
    have hm := Nat.mod_lt (u + 2 ^ (s - 1)) (show 0 < 2 ^ s by omega)
    have : (u + 2 ^ (s - 1)) / 2 ^ s * 2 ^ s = 2 ^ s * ((u + 2 ^ (s - 1)) / 2 ^ s) :=
      Nat.mul_comm _ _
    omega
  refine ⟨hdvd, ?_⟩
  rw [hP] at hdvd hgt hle ⊢
  exact round_nearest_aux u _ _ hdvd hle hgt

theorem testBit_div_mul_low (x s i : Nat) (hi : i < s) : (x / 2 ^ s * 2 ^ s).testBit i = false := by
  rw [Nat.mul_comm, Nat.testBit_mul_pow_two]
  simp [hi]

theorem testBit_div_mul_high (x s i : Nat) (hi : s ≤ i) :
    (x / 2 ^ s * 2 ^ s).testBit i = x.testBit i := by
  rw [Nat.mul_comm, Nat.testBit_mul_pow_two, ← Nat.shiftRight_eq_div_pow, Nat.testBit_shiftRight]
  have : s + (i - s) = i := by omega
  simp [hi, this]

/-! ## Claims about `truncate_mantissas` -/

/-- C1: for `mantissaBits = k` in [0,22] and `s = 23 - k`, `truncate_mantissas`
maps every 32-bit pattern `u` to `(u + 2^(s-1)) mod 2^32` with its low `s` bits
cleared and its bits `s` and above kept; when `u + 2^(s-1) < 2^32` the result is
the multiple of `2^s` nearest to `u`, a tie going to the larger pattern, and it
differs from `u` by at most `2^(s-1)`. -/
theorem truncate_mantissas_rounds (k : Nat) (hk : k ≤ 22) (values : List Nat) :
    List.Forall₂
      (fun (u r : Nat) =>
        r = (u + 2 ^ (23 - k - 1)) % 2 ^ 32 / 2 ^ (23 - k) * 2 ^ (23 - k) ∧
        (∀ i, i < 23 - k → r.testBit i = false) ∧
        (∀ i, 23 - k ≤ i → r.testBit i = ((u + 2 ^ (23 - k - 1)) % 2 ^ 32).testBit i) ∧
        (u + 2 ^ (23 - k - 1) < 2 ^ 32 →
          2 ^ (23 - k) ∣ r ∧
          (∀ m : Nat, 2 ^ (23 - k) ∣ m →
            |(r : Int) - u| ≤ |(m : Int) - u| ∧ (|(m : Int) - u| = |(r : Int) - u| → m ≤ r)) ∧
          |(r : Int) - u| ≤ ((2 ^ (23 - k - 1) : Nat) : Int)))
      values (truncate_mantissas values (k : Int)) := by
  rw [truncate_mantissas_eq_map values k (by omega)]
  rw [List.forall₂_map_right_iff]
  apply List.forall₂_same.mpr
  intro u _
  have hs : 23 - k - 1 = 22 - k := by omega
  rw [truncate_one_eq u k hk, hs]
  refine ⟨rfl, fun i hi => testBit_div_mul_low _ _ _ hi,
    fun i hi => testBit_div_mul_high _ _ _ hi, ?_⟩
  intro hlt
  rw [Nat.mod_eq_of_lt hlt, ← hs]
  exact round_nearest u (23 - k) (by omega)

/-- Witness for C1: `mantissaBits = 13` on the patterns `0x3FFFFFFF` and `0x40490FDB`. -/
theorem truncate_mantissas_rounds_witness :
    List.Forall₂
      (fun (u r : Nat) =>
        r = (u + 2 ^ (23 - 13 - 1)) % 2 ^ 32 / 2 ^ (23 - 13) * 2 ^ (23 - 13) ∧
        (∀ i, i < 23 - 13 → r.testBit i = false) ∧
        (∀ i, 23 - 13 ≤ i → r.testBit i = ((u + 2 ^ (23 - 13 - 1)) % 2 ^ 32).testBit i) ∧
        (u + 2 ^ (23 - 13 - 1) < 2 ^ 32 →
          2 ^ (23 - 13) ∣ r ∧
          (∀ m : Nat, 2 ^ (23 - 13) ∣ m →
            |(r : Int) - u| ≤ |(m : Int) - u| ∧ (|(m : Int) - u| = |(r : Int) - u| → m ≤ r)) ∧
          |(r : Int) - u| ≤ ((2 ^ (23 - 13 - 1) : Nat) : Int)))
      [0x3FFFFFFF, 0x40490FDB] (truncate_mantissas [0x3FFFFFFF, 0x40490FDB] ((13 : Nat) : Int)) :=
  truncate_mantissas_rounds 13 (by decide) [0x3FFFFFFF, 0x40490FDB]

/-- C2: for `mantissaBits = k` in [0,22], every pattern produced by
`truncate_mantissas` has its lowest `23 - k` bits equal to zero; for `k = 0` the
whole 23-bit mantissa field of every output is zero. -/
theorem truncate_mantissas_low_bits_zero (k : Nat) (hk : k ≤ 22) (values : List Nat) :
    (∀ r ∈ truncate_mantissas values (k : Int),
      r % 2 ^ (23 - k) = 0 ∧ ∀ i, i < 23 - k → r.testBit i = false) ∧
    (k = 0 → ∀ r ∈ truncate_mantissas values (k : Int), mantField r = 0) := by
  have key : ∀ r ∈ truncate_mantissas values (k : Int), r % 2 ^ (23 - k) = 0 := by
    intro r hr
    rw [truncate_mantissas_eq_map values k (by omega), List.mem_map] at hr
    obtain ⟨u, _, rfl⟩ := hr
    rw [truncate_one_eq u k hk]
    exact Nat.mul_mod_left _ _
  refine ⟨fun r hr => ⟨key r hr, ?_⟩, ?_⟩
  · intro i hi
    have h := key r hr
    have : r = r / 2 ^ (23 - k) * 2 ^ (23 - k) := by
      have := Nat.div_add_mod r (2 ^ (23 - k))
      rw [h, Nat.add_zero, Nat.mul_comm] at this
      exact this.symm
    rw [this]
    exact testBit_div_mul_low _ _ _ hi
  · intro hk0 r hr
    have h := key r hr
    subst hk0
    simpa [mantField] using h

/-- Witness for C2: `mantissaBits = 0` on the patterns `0x3FFFFFFF` and `0xC0490FDB`. -/
theorem truncate_mantissas_low_bits_zero_witness :
    (∀ r ∈ truncate_mantissas [0x3FFFFFFF, 0xC0490FDB] ((0 : Nat) : Int),
      r % 2 ^ (23 - 0) = 0 ∧ ∀ i, i < 23 - 0 → r.testBit i = false) ∧
    (0 = 0 → ∀ r ∈ truncate_mantissas [0x3FFFFFFF, 0xC0490FDB] ((0 : Nat) : Int),
      mantField r = 0) :=
  truncate_mantissas_low_bits_zero 0 (by decide) [0x3FFFFFFF, 0xC0490FDB]

/-- A pattern whose mantissa bits `22 - k .. 22` are all ones has a mantissa
field of at least `2^23 - 2^(22-k)`. -/
theorem mantField_ge_of_top_ones (k u : Nat) (hk : k ≤ 22)
    (hones : ∀ i, 22 - k ≤ i → i ≤ 22 → u.testBit i = true) :
    2 ^ 23 - 2 ^ (22 - k) ≤ u % 2 ^ 23 := by
  have hq : u % 2 ^ 23 / 2 ^ (22 - k) = 2 ^ (k + 1) - 1 := by
    apply Nat.eq_of_testBit_eq
    intro i
    rw [← Nat.shiftRight_eq_div_pow, Nat.testBit_shiftRight, Nat.testBit_mod_two_pow,
      Nat.testBit_two_pow_sub_one]
    by_cases hi : i < k + 1
    · have h1 : 22 - k + i < 23 := by omega
      simp [hi, h1, hones (22 - k + i) (by omega) (by omega)]
    · have h1 : ¬ 22 - k + i < 23 := by omega
      simp [hi, h1]
  have hle := Nat.div_mul_le_self (u % 2 ^ 23) (2 ^ (22 - k))
  rw [hq] at hle
  have hpow : 2 ^ (k + 1) * 2 ^ (22 - k) = 2 ^ 23 := by
    rw [← pow_add]; congr 1; omega
  rw [Nat.sub_mul, hpow, Nat.one_mul] at hle
  exact hle

theorem div_mul_unique (P x B : Nat) (hB : P ∣ B) (h1 : B ≤ x) (h2 : x < B + P) :
    x / P * P = B := by
  have hP : 0 < P := by omega
  have hd : P ∣ x / P * P := Nat.dvd_mul_left _ _
  have hle : x / P * P ≤ x := Nat.div_mul_le_self _ _
  have hgt : x < x / P * P + P := by
    have := Nat.div_add_mod x P
    have := Nat.mod_lt x hP
    have : x / P * P = P * (x / P) := Nat.mul_comm _ _
    omega
  rcases Nat.lt_trichotomy (x / P * P) B with h | h | h
  · have := mult_gap _ _ _ hd hB h; omega
  · exact h
  · have := mult_gap _ _ _ hB hd h; omega

/-- A pattern with exponent field below 255 is below `2^32 - 2^23`. -/
theorem lt_of_expField_lt (u : Nat) (hu : u < 2 ^ 32) (he : expField u < 255) :
    u < 2 ^ 32 - 2 ^ 23 := by
  unfold expField at he
  omega

/-- C5: for `mantissaBits = k` in [0,22], a pattern with exponent field
`e < 255` whose top `k` mantissa bits and first discarded bit (bit `22 - k`) are
all ones is mapped to the pattern with the same sign bit, exponent field
`e + 1` and mantissa field zero: the rounding carry reaches the exponent and
is kept. -/
theorem truncate_mantissas_carry (k : Nat) (hk : k ≤ 22) (u : Nat) (hu : u < 2 ^ 32)
    (he : expField u < 255) (hones : ∀ i, 22 - k ≤ i → i ≤ 22 → u.testBit i = true) :
    truncate_mantissas [u] (k : Int) = [signBit u * 2 ^ 31 + (expField u + 1) * 2 ^ 23] ∧
    signBit (signBit u * 2 ^ 31 + (expField u + 1) * 2 ^ 23) = signBit u ∧
    expField (signBit u * 2 ^ 31 + (expField u + 1) * 2 ^ 23) = expField u + 1 ∧
    mantField (signBit u * 2 ^ 31 + (expField u + 1) * 2 ^ 23) = 0 := by
  have hm := mantField_ge_of_top_ones k u hk hones
  have hlt := lt_of_expField_lt u hu he
  have hj : 2 ^ (22 - k) ≤ 2 ^ 22 := Nat.pow_le_pow_right (by norm_num) (by omega)
  have hjpos : 0 < 2 ^ (22 - k) := Nat.pos_pow_of_pos _ (by norm_num)
  have hP : 2 ^ (23 - k) = 2 * 2 ^ (22 - k) := by
    have := two_pow_pred (23 - k) (by omega)
    have h2 : 23 - k - 1 = 22 - k := by omega
    rwa [h2] at this
  have hdvd : 2 ^ (23 - k) ∣ 2 ^ 23 := Nat.pow_dvd_pow 2 (by omega)
  refine ⟨?_, ?_, ?_, ?_⟩
  · rw [truncate_mantissas_eq_map [u] k (by omega)]
    simp only [List.map_cons, List.map_nil]
    rw [truncate_one_eq u k hk, Nat.mod_eq_of_lt (by omega)]
    congr 1
    apply div_mul_unique
    · apply Nat.dvd_add
      · exact Dvd.dvd.mul_left (Dvd.dvd.trans hdvd (by norm_num)) _
      · exact Dvd.dvd.mul_left hdvd _
    · unfold signBit expField; omega
    · unfold signBit expField; omega
  · unfold signBit expField at *; omega
  · unfold signBit expField at *; omega
  · unfold signBit expField mantField at *; omega

/-- Witness for C5: `0x3FFFFFFF` with `mantissaBits = 13` gives `0x40000000`. -/
theorem truncate_mantissas_carry_witness :
    truncate_mantissas [0x3FFFFFFF] ((13 : Nat) : Int) = [0x40000000] ∧
    signBit 0x40000000 = signBit 0x3FFFFFFF ∧
    expField 0x40000000 = expField 0x3FFFFFFF + 1 ∧
    mantField 0x40000000 = 0 :=
  truncate_mantissas_carry 13 (by decide) 0x3FFFFFFF (by decide) (by decide)
    (by
      intro i h1 h2
      have h3 : 9 ≤ i := h1
      interval_cases i <;> decide)

/-! ## Byte buffers and the compress/decompress round trip -/

theorem floatsToBytes_length (xs : List Nat) : (floatsToBytes xs).length = xs.length * 4 := by
  induction xs with
  | nil => rfl
  | cons u rest ih =>
    simp only [floatsToBytes, floatBytes, List.length_append, List.length_cons, List.length_nil, ih]
    omega

theorem bytesToFloats_floatsToBytes (xs : List Nat) (hx : ∀ u ∈ xs, u < 2 ^ 32) :
    bytesToFloats (floatsToBytes xs) = xs := by
  induction xs with
  | nil => rfl
  | cons u rest ih =>
    have hu : u < 2 ^ 32 := hx u (List.mem_cons_self _ _)
    have hrest : ∀ v ∈ rest, v < 2 ^ 32 := fun v hv => hx v (List.mem_cons_of_mem _ hv)
    have hb : floatsToBytes (u :: rest) =
        (u % 256) :: (u / 256 % 256) :: (u / 65536 % 256) :: (u / 16777216 % 256) ::
          floatsToBytes rest := rfl
    rw [hb, bytesToFloats, ih hrest]
    congr 1
    omega

theorem truncate_one_lt (u : Nat) (k : Int) (hu : u < 2 ^ 32) : truncate_one u k < 2 ^ 32 := by
  unfold truncate_one
  split
  · exact lt_of_le_of_lt Nat.and_le_left (Nat.mod_lt _ (by norm_num [UINT32_MOD]))
  · exact hu

theorem truncate_mantissas_lt (xs : List Nat) (k : Int) (hx : ∀ u ∈ xs, u < 2 ^ 32) :
    ∀ r ∈ truncate_mantissas xs k, r < 2 ^ 32 := by
  unfold truncate_mantissas
  split
  · exact hx
  · intro r hr
    rw [List.mem_map] at hr
    obtain ⟨u, hu, rfl⟩ := hr
    exact truncate_one_lt u k (hx u hu)

theorem truncate_mantissas_length (xs : List Nat) (k : Int) :
    (truncate_mantissas xs k).length = xs.length := by
  unfold truncate_mantissas
  split
  · rfl
  · simp

/-- With a zlib whose inflate inverts its deflate, `compress` succeeds and
`decompress` returns the truncated sequence. -/
theorem roundtrip_core (z : Zlib) (hz : z.InflateInvertsDeflate) (c : TruncCompressor)
    (x : List Nat) (hx : ∀ u ∈ x, u < 2 ^ 32) :
    ∃ cd, TruncCompressor.compress z c x = .ok cd ∧
      TruncCompressor.decompress z cd = .ok (truncate_mantissas x c.mantissaBits_) := by
  obtain ⟨out, hout, hin⟩ :=
    hz (floatsToBytes (truncate_mantissas x c.mantissaBits_)) Z_BEST_COMPRESSION
      (by decide) (by decide)
  rw [floatsToBytes_length] at hout hin
  refine ⟨⟨out, x.length, c.getConfig⟩, ?_, ?_⟩
  · unfold TruncCompressor.compress
    simp only [hout]
  · unfold TruncCompressor.decompress
    rw [truncate_mantissas_length] at hin
    simp only [hin, floatsToBytes_length, truncate_mantissas_length, ne_eq, not_true_eq_false,
      if_false]
    rw [bytesToFloats_floatsToBytes _ (truncate_mantissas_lt x _ hx)]

/-- C3: for every configuration (in particular every valid one, `mantissaBits`
in [0,23] and `compressionLevel` in [0,9]) and every float sequence `x`, if
inflate inverts deflate then `compress` succeeds and `decompress` of its result
has exactly `x.length` elements and is, bit for bit,
`truncate_mantissas x mantissaBits`. -/
theorem decompress_compress_eq_truncate (z : Zlib) (hz : z.InflateInvertsDeflate)
    (c : TruncCompressor) (x : List Nat) (hx : ∀ u ∈ x, u < 2 ^ 32) :
    ∃ cd y, TruncCompressor.compress z c x = .ok cd ∧
      TruncCompressor.decompress z cd = .ok y ∧
      y.length = x.length ∧
      y = truncate_mantissas x c.getMantissaBits := by
  obtain ⟨cd, h1, h2⟩ := roundtrip_core z hz c x hx
  exact ⟨cd, _, h1, h2, truncate_mantissas_length _ _, rfl⟩

theorem storedZlib_inverts : storedZlib.InflateInvertsDeflate := by
  intro source level _ _
  refine ⟨source, ?_, ?_⟩
  · simp [storedZlib]
  · simp [storedZlib]

/-- Witness for C3: `mantissaBits = 13`, `compressionLevel = 5`, three floats. -/
theorem decompress_compress_eq_truncate_witness :
    ∃ cd y, TruncCompressor.compress storedZlib ⟨13, 5⟩ [0x3FFFFFFF, 0x40490FDB, 0] = .ok cd ∧
      TruncCompressor.decompress storedZlib cd = .ok y ∧
      y.length = [0x3FFFFFFF, 0x40490FDB, 0].length ∧
      y = truncate_mantissas [0x3FFFFFFF, 0x40490FDB, 0]
        (TruncCompressor.getMantissaBits ⟨13, 5⟩) :=
  decompress_compress_eq_truncate storedZlib storedZlib_inverts ⟨13, 5⟩
    [0x3FFFFFFF, 0x40490FDB, 0] (by decide)

/-- C4: with `mantissaBits = 23`, `truncate_mantissas` returns its input bit for
bit, so, if inflate inverts deflate, `decompress` of `compress x` is `x`. -/
theorem mantissaBits_23_lossless (z : Zlib) (hz : z.InflateInvertsDeflate)
    (compressionLevel : Int) (x : List Nat) (hx : ∀ u ∈ x, u < 2 ^ 32) :
    truncate_mantissas x 23 = x ∧
    ∃ cd, TruncCompressor.compress z ⟨23, compressionLevel⟩ x = .ok cd ∧
      TruncCompressor.decompress z cd = .ok x := by
  have h23 : truncate_mantissas x 23 = x := by
    unfold truncate_mantissas truncate_one
    simp
  refine ⟨h23, ?_⟩
  obtain ⟨cd, h1, h2⟩ := roundtrip_core z hz ⟨23, compressionLevel⟩ x hx
  exact ⟨cd, h1, by rw [h2]; exact congrArg _ h23⟩

/-- Witness for C4: `compressionLevel = 5` on three floats. -/
theorem mantissaBits_23_lossless_witness :
    truncate_mantissas [0x3FFFFFFF, 0x40490FDB, 0x80000001] 23
      = [0x3FFFFFFF, 0x40490FDB, 0x80000001] ∧
    ∃ cd, TruncCompressor.compress storedZlib ⟨23, 5⟩ [0x3FFFFFFF, 0x40490FDB, 0x80000001]
        = .ok cd ∧
      TruncCompressor.decompress storedZlib cd = .ok [0x3FFFFFFF, 0x40490FDB, 0x80000001] :=
  mantissaBits_23_lossless storedZlib storedZlib_inverts 5
    [0x3FFFFFFF, 0x40490FDB, 0x80000001] (by decide)

/-! ## Exact values and the error of truncation -/

/-- Within one binade, closed at the top, the value of a pattern is an affine
function of the pattern: two finite patterns `u` and `t` with
`u - mantField u ≤ t ≤ u - mantField u + 2^23` differ in value by the spacing of
the binade of `u` times their distance as integers. -/
theorem floatValue_sub_abs (u t : Nat) (hu : u < 2 ^ 32) (he : expField u < 255)
    (hlo : u - u % 2 ^ 23 ≤ t) (hhi : t ≤ u - u % 2 ^ 23 + 2 ^ 23) (ht : expField t < 255) :
    |floatValue t - floatValue u| =
      (if expField u = 0 then (2 : ℚ) ^ (-149 : Int) else (2 : ℚ) ^ ((expField u : Int) - 150)) *
        |(t : ℚ) - (u : ℚ)| := by
  have hS : signBit t = signBit u := by
    unfold signBit expField at *; omega
  have hcases : (expField t = expField u ∧ mantField t + u = t + mantField u) ∨
      (expField t = expField u + 1 ∧ mantField t = 0 ∧ t + mantField u = u + 2 ^ 23) := by
    unfold expField mantField at *; omega
  have hsgn : |(if signBit u = 1 then (-1 : ℚ) else 1)| = 1 := by
    split <;> simp
  have key : floatValue t - floatValue u =
      (if signBit u = 1 then (-1 : ℚ) else 1) *
        ((if expField u = 0 then (2 : ℚ) ^ (-149 : Int) else (2 : ℚ) ^ ((expField u : Int) - 150)) *
          ((t : ℚ) - (u : ℚ))) := by
    unfold floatValue
    rw [hS]
    rcases hcases with ⟨h1, h2⟩ | ⟨h1, h2, h3⟩
    · have h2q : (mantField t : ℚ) = (t : ℚ) - u + mantField u := by
        have : ((mantField t + u : Nat) : ℚ) = ((t + mantField u : Nat) : ℚ) := by rw [h2]
        push_cast at this
        linarith
      rw [h1, h2q]
      by_cases h0 : expField u = 0 <;> by_cases hs : signBit u = 1 <;>
        simp only [h0, hs, ↓reduceIte] <;> ring
    · have h3q : (t : ℚ) - u = 2 ^ 23 - mantField u := by
        have : ((t + mantField u : Nat) : ℚ) = ((u + 2 ^ 23 : Nat) : ℚ) := by rw [h3]
        push_cast at this
        linarith
      rw [h1, h2, h3q]
      have hne : ¬ expField u + 1 = 0 := by omega
      rw [if_neg hne]
      have hz : (((expField u + 1 : Nat) : Int) - 150) = ((expField u : Int) - 150) + 1 := by
        push_cast; ring
      rw [hz, zpow_add_one₀ (two_ne_zero)]
      by_cases h0 : expField u = 0 <;> by_cases hs : signBit u = 1 <;>
        simp only [h0, hs, ↓reduceIte] <;> norm_num <;> ring
  rw [key, abs_mul, hsgn, one_mul, abs_mul]
  congr 1
  apply abs_of_pos
  split <;> positivity

/-- The rounded pattern stays in the binade of `u`, closed at the top. -/
theorem round_in_binade (u s : Nat) (hs : 1 ≤ s) (hs23 : s ≤ 23) :
    u - u % 2 ^ 23 ≤ (u + 2 ^ (s - 1)) / 2 ^ s * 2 ^ s ∧
    (u + 2 ^ (s - 1)) / 2 ^ s * 2 ^ s ≤ u - u % 2 ^ 23 + 2 ^ 23 := by
  obtain ⟨_, hnear, _⟩ := round_nearest u s hs
  have hdvd : 2 ^ s ∣ 2 ^ 23 := Nat.pow_dvd_pow 2 hs23
  have hbase : 2 ^ 23 ∣ u - u % 2 ^ 23 := Nat.dvd_sub_mod u
  have hmod : u % 2 ^ 23 < 2 ^ 23 := Nat.mod_lt _ (by norm_num)
  have hmle : u % 2 ^ 23 ≤ u := Nat.mod_le _ _
  have h1 := (hnear (u - u % 2 ^ 23) (Dvd.dvd.trans hdvd hbase)).1
  have h2 := (hnear (u - u % 2 ^ 23 + 2 ^ 23)
    (Nat.dvd_add (Dvd.dvd.trans hdvd hbase) hdvd)).1
  generalize (u + 2 ^ (s - 1)) / 2 ^ s * 2 ^ s = t at h1 h2 ⊢
  have e1 : |((u - u % 2 ^ 23 : Nat) : Int) - u| = ((u % 2 ^ 23 : Nat) : Int) := by
    rw [abs_of_nonpos (by omega)]; omega
  have e2 : |((u - u % 2 ^ 23 + 2 ^ 23 : Nat) : Int) - u| =
      ((2 ^ 23 - u % 2 ^ 23 : Nat) : Int) := by
    rw [abs_of_nonneg (by omega)]; omega
  rw [e1] at h1
  rw [e2] at h2
  rw [abs_le] at h1 h2
  omega

/-- Rounding to a coarser grid moves a pattern at least as far as rounding to
a finer one. -/
theorem round_dist_mono (u s1 s2 : Nat) (hs2 : 1 ≤ s2) (h : s2 ≤ s1) :
    |(((u + 2 ^ (s2 - 1)) / 2 ^ s2 * 2 ^ s2 : Nat) : Int) - u| ≤
      |(((u + 2 ^ (s1 - 1)) / 2 ^ s1 * 2 ^ s1 : Nat) : Int) - u| := by
  obtain ⟨_, hnear, _⟩ := round_nearest u s2 hs2
  have hdvd : 2 ^ s2 ∣ (u + 2 ^ (s1 - 1)) / 2 ^ s1 * 2 ^ s1 :=
    Dvd.dvd.mul_left (Nat.pow_dvd_pow 2 h) _
  exact (hnear _ hdvd).1

/-- Closed form of the loop body on a finite pattern: the sum does not wrap. -/
theorem truncate_one_finite (u k : Nat) (hk : k ≤ 22) (hu : u < 2 ^ 32)
    (he : expField u < 255) :
    truncate_one u (k : Int) = (u + 2 ^ (23 - k - 1)) / 2 ^ (23 - k) * 2 ^ (23 - k) := by
  have hlt := lt_of_expField_lt u hu he
  have hj : 2 ^ (22 - k) ≤ 2 ^ 22 := Nat.pow_le_pow_right (by norm_num) (by omega)
  have hs : 23 - k - 1 = 22 - k := by omega
  rw [truncate_one_eq u k hk, hs, Nat.mod_eq_of_lt (by omega)]

/-- Element-wise monotonicity of the truncation error. -/
theorem abs_error_mono (u : Nat) (hu : u < 2 ^ 32) (he : expField u < 255)
    (k1 k2 : Nat) (h12 : k1 < k2) (h23 : k2 ≤ 23)
    (hf1 : expField (truncate_one u (k1 : Int)) < 255)
    (hf2 : expField (truncate_one u (k2 : Int)) < 255) :
    |floatValue (truncate_one u (k2 : Int)) - floatValue u| ≤
      |floatValue (truncate_one u (k1 : Int)) - floatValue u| := by
  by_cases hk2 : k2 = 23
  · subst hk2
    have : truncate_one u ((23 : Nat) : Int) = u := by
      unfold truncate_one; simp
    rw [this, sub_self, abs_zero]
    exact abs_nonneg _
  · have hk2le : k2 ≤ 22 := by omega
    have hk1le : k1 ≤ 22 := by omega
    rw [truncate_one_finite u k1 hk1le hu he] at hf1 ⊢
    rw [truncate_one_finite u k2 hk2le hu he] at hf2 ⊢
    obtain ⟨a1, b1⟩ := round_in_binade u (23 - k1) (by omega) (by omega)
    obtain ⟨a2, b2⟩ := round_in_binade u (23 - k2) (by omega) (by omega)
    have hd := round_dist_mono u (23 - k1) (23 - k2) (by omega) (by omega)
    rw [floatValue_sub_abs u _ hu he a1 b1 hf1, floatValue_sub_abs u _ hu he a2 b2 hf2]
    generalize (u + 2 ^ (23 - k1 - 1)) / 2 ^ (23 - k1) * 2 ^ (23 - k1) = t1 at hd ⊢
    generalize (u + 2 ^ (23 - k2 - 1)) / 2 ^ (23 - k2) * 2 ^ (23 - k2) = t2 at hd ⊢
    apply mul_le_mul_of_nonneg_left
    · exact_mod_cast hd
    · split <;> positivity

theorem meanAbsError_truncate (x : List Nat) (k : Nat) (hk : k ≤ 23) :
    meanAbsError x (truncate_mantissas x (k : Int)) =
      (x.map (fun u => |floatValue (truncate_one u (k : Int)) - floatValue u|)).sum /
        (x.length : ℚ) := by
  unfold meanAbsError
  rw [truncate_mantissas_eq_map x k hk]
  congr 1
  induction x with
  | nil => rfl
  | cons u rest ih => simp [List.zipWith, ih]

theorem getD_map_truncate (x : List Nat) (k : Nat) (hk : k ≤ 23) (i : Nat) (hi : i < x.length) :
    (truncate_mantissas x (k : Int)).getD i 0 = truncate_one (x.getD i 0) (k : Int) ∧
      x.getD i 0 ∈ x := by
  rw [truncate_mantissas_eq_map x k hk]
  constructor
  · simp [List.getD_eq_getElem?_getD, List.getElem?_map, List.getElem?_eq_getElem hi]
  · simp [List.getD_eq_getElem?_getD, List.getElem?_eq_getElem hi]

/-- C6: mantissa truncation is monotonic in information loss. For `k1 < k2` in
[0,23] and every non-empty sequence of finite floats whose truncations at `k1`
and `k2` are finite, the mean absolute error (exact rational values) at `k1` is
at least the one at `k2`, and the same holds element by element. -/
theorem truncation_error_monotone (k1 k2 : Nat) (h12 : k1 < k2) (h23 : k2 ≤ 23)
    (x : List Nat) (_hne : x ≠ [])
    (hx : ∀ u ∈ x, u < 2 ^ 32 ∧ expField u < 255)
    (hf1 : ∀ t ∈ truncate_mantissas x (k1 : Int), expField t < 255)
    (hf2 : ∀ t ∈ truncate_mantissas x (k2 : Int), expField t < 255) :
    meanAbsError x (truncate_mantissas x (k2 : Int)) ≤
      meanAbsError x (truncate_mantissas x (k1 : Int)) ∧
    ∀ i, i < x.length →
      |floatValue ((truncate_mantissas x (k2 : Int)).getD i 0) - floatValue (x.getD i 0)| ≤
        |floatValue ((truncate_mantissas x (k1 : Int)).getD i 0) - floatValue (x.getD i 0)| := by
  have hk1 : k1 ≤ 23 := by omega
  have hel : ∀ u ∈ x, |floatValue (truncate_one u (k2 : Int)) - floatValue u| ≤
      |floatValue (truncate_one u (k1 : Int)) - floatValue u| := by
    intro u hu
    apply abs_error_mono u (hx u hu).1 (hx u hu).2 k1 k2 h12 h23
    · apply hf1
      rw [truncate_mantissas_eq_map x k1 hk1]
      exact List.mem_map_of_mem _ hu
    · apply hf2
      rw [truncate_mantissas_eq_map x k2 h23]
      exact List.mem_map_of_mem _ hu
  constructor
  · rw [meanAbsError_truncate x k1 hk1, meanAbsError_truncate x k2 h23]
    apply div_le_div_of_nonneg_right (List.sum_le_sum hel)
    exact Nat.cast_nonneg _
  · intro i hi
    obtain ⟨e1, hmem⟩ := getD_map_truncate x k1 hk1 i hi
    obtain ⟨e2, _⟩ := getD_map_truncate x k2 h23 i hi
    rw [e1, e2]
    exact hel _ hmem

/-- Witness for C6: `mantissaBits` 5 against 13 on three finite floats. -/
theorem truncation_error_monotone_witness :
    meanAbsError [0x3FFFFFFF, 0x40490FDB, 0x80000001]
        (truncate_mantissas [0x3FFFFFFF, 0x40490FDB, 0x80000001] ((13 : Nat) : Int)) ≤
      meanAbsError [0x3FFFFFFF, 0x40490FDB, 0x80000001]
        (truncate_mantissas [0x3FFFFFFF, 0x40490FDB, 0x80000001] ((5 : Nat) : Int)) ∧
    ∀ i, i < [0x3FFFFFFF, 0x40490FDB, 0x80000001].length →
      |floatValue ((truncate_mantissas [0x3FFFFFFF, 0x40490FDB, 0x80000001]
            ((13 : Nat) : Int)).getD i 0) -
          floatValue ([0x3FFFFFFF, 0x40490FDB, 0x80000001].getD i 0)| ≤
        |floatValue ((truncate_mantissas [0x3FFFFFFF, 0x40490FDB, 0x80000001]
            ((5 : Nat) : Int)).getD i 0) -
          floatValue ([0x3FFFFFFF, 0x40490FDB, 0x80000001].getD i 0)| :=
  truncation_error_monotone 5 13 (by decide) (by decide) [0x3FFFFFFF, 0x40490FDB, 0x80000001]
    (by decide) (by decide) (by decide) (by decide)

/-! ## Construction and configuration -/

/-- C7 (evaluation): a `TruncCompressor` configured with `compressionLevel = 5`
is constructible, and its `compress` hands level 9 (`Z_BEST_COMPRESSION`) to
`compress2`, not the configured level. -/
theorem compress_passes_best_compression :
    TruncCompressor.new 5 13 = .ok ⟨13, 5⟩ ∧
    TruncCompressor.compress levelEchoZlib ⟨13, 5⟩ [0x3FFFFFFF] =
      .ok ⟨[9], 1, [("compressionLevel", "5"), ("mantissaBits", "13")]⟩ := by
  constructor <;> rfl

/-- Exact description of the successful runs of the map constructor. -/
theorem fromConfig_eq_ok_iff (config : ConfigMap) (c : TruncCompressor) :
    TruncCompressor.fromConfig config = .ok c ↔
      ∃ sl sm L M, config.find "compressionLevel" = some sl ∧
        config.find "mantissaBits" = some sm ∧ stoi sl = .ok L ∧ stoi sm = .ok M ∧
        0 ≤ L ∧ L ≤ 9 ∧ 0 ≤ M ∧ M ≤ 23 ∧ c = ⟨M, L⟩ := by
  constructor
  · intro h
    unfold TruncCompressor.fromConfig at h
    simp only [bind, Except.bind, TruncCompressor.setCompressionLevel,
      TruncCompressor.setMantissaBits] at h
    cases hl : config.find "compressionLevel" with
    | none => rw [hl] at h; cases h
    | some sl =>
      rw [hl] at h
      simp only at h
      cases hsl : stoi sl with
      | error e => rw [hsl] at h; cases h
      | ok L =>
        rw [hsl] at h
        simp only at h
        by_cases hL : L < 0 ∨ L > 9
        · rw [if_pos hL] at h; cases h
        · rw [if_neg hL] at h
          simp only at h
          cases hm : config.find "mantissaBits" with
          | none => rw [hm] at h; cases h
          | some sm =>
            rw [hm] at h
            simp only at h
            cases hsm : stoi sm with
            | error e => rw [hsm] at h; cases h
            | ok M =>
              rw [hsm] at h
              simp only at h
              by_cases hM : M < 0 ∨ M > 23
              · rw [if_pos hM] at h; cases h
              · rw [if_neg hM] at h
                cases h
                exact ⟨sl, sm, L, M, rfl, rfl, hsl, hsm, by omega, by omega, by omega,
                  by omega, rfl⟩
  · rintro ⟨sl, sm, L, M, h1, h2, h3, h4, h5, h6, h7, h8, h9⟩
    have hL : ¬ (L < 0 ∨ L > 9) := by omega
    have hM : ¬ (M < 0 ∨ M > 23) := by omega
    unfold TruncCompressor.fromConfig
    simp only [bind, Except.bind, TruncCompressor.setCompressionLevel,
      TruncCompressor.setMantissaBits, h1, h2, h3, h4, if_neg hL, if_neg hM, h9]

/-- Exact description of the failing runs of the map constructor. -/
theorem fromConfig_error_of_not_ok (config : ConfigMap)
    (h : ¬ ∃ c, TruncCompressor.fromConfig config = .ok c) :
    ∃ e, TruncCompressor.fromConfig config = .error e := by
  cases hc : TruncCompressor.fromConfig config with
  | error e => exact ⟨e, rfl⟩
  | ok c => exact absurd ⟨c, hc⟩ h

/-! ## `std::stoi` reads back what `std::to_string` writes -/

theorem digitChar_props (d : Nat) (hd : d < 10) :
    (Nat.digitChar d).isDigit = true ∧ (Nat.digitChar d).toNat - 48 = d ∧
    isspace (Nat.digitChar d) = false ∧ Nat.digitChar d ≠ Char.ofNat 45 ∧
    Nat.digitChar d ≠ Char.ofNat 43 := by
  interval_cases d <;> decide

theorem toDigitsCore_append (f n : Nat) (ds : List Char) :
    Nat.toDigitsCore 10 f n ds = Nat.toDigitsCore 10 f n [] ++ ds := by
  induction f generalizing n ds with
  | zero => simp [Nat.toDigitsCore]
  | succ f ih =>
    simp only [Nat.toDigitsCore]
    split
    · simp
    · rw [ih (n / 10) (Nat.digitChar (n % 10) :: ds), ih (n / 10) [Nat.digitChar (n % 10)]]
      simp

theorem digitsValue_append (l : List Char) (c : Char) :
    digitsValue (l ++ [c]) = 10 * digitsValue l + (c.toNat - 48) := by
  simp [digitsValue, List.foldl_append]

/-- The decimal digits written for `n` are digits, there is at least one, and
their value is `n`. -/
theorem toDigitsCore_spec (f n : Nat) (h : n < f) :
    (∀ c ∈ Nat.toDigitsCore 10 f n [], ∃ d, d < 10 ∧ c = Nat.digitChar d) ∧
    Nat.toDigitsCore 10 f n [] ≠ [] ∧
    digitsValue (Nat.toDigitsCore 10 f n []) = n := by
  induction f generalizing n with
  | zero => omega
  | succ f ih =>
    simp only [Nat.toDigitsCore]
    have hmod : n % 10 < 10 := Nat.mod_lt _ (by norm_num)
    by_cases h0 : n / 10 = 0
    · rw [if_pos h0]
      refine ⟨?_, by simp, ?_⟩
      · intro c hc
        rw [List.mem_singleton] at hc
        exact ⟨n % 10, hmod, hc⟩
      · have := (digitChar_props (n % 10) hmod).2.1
        simp only [digitsValue, List.foldl_cons, List.foldl_nil, this]
        omega
    · rw [if_neg h0, toDigitsCore_append]
      obtain ⟨a, b, c⟩ := ih (n / 10) (by omega)
      refine ⟨?_, by simp, ?_⟩
      · intro ch hch
        rw [List.mem_append, List.mem_singleton] at hch
        rcases hch with hch | hch
        · exact a ch hch
        · exact ⟨n % 10, hmod, hch⟩
      · rw [digitsValue_append, c, (digitChar_props (n % 10) hmod).2.1]
        omega

/-- Reading a non-empty run of digits, with or without a minus sign in front. -/
theorem stoi_digits (l : List Char) (hl : ∀ c ∈ l, ∃ d, d < 10 ∧ c = Nat.digitChar d)
    (hne : l ≠ []) :
    (digitsValue l ≤ 2147483647 → stoi (String.mk l) = .ok (digitsValue l : Int)) ∧
    (digitsValue l ≤ 2147483648 →
      stoi (String.mk (Char.ofNat 45 :: l)) = .ok (-(digitsValue l : Int))) := by
  obtain ⟨c0, rest, rfl⟩ : ∃ c0 rest, l = c0 :: rest := by
    cases l with
    | nil => exact absurd rfl hne
    | cons c0 rest => exact ⟨c0, rest, rfl⟩
  obtain ⟨d0, hd0, hc0⟩ := hl c0 (List.mem_cons_self _ _)
  obtain ⟨_, _, hsp, hminus, hplus⟩ := digitChar_props d0 hd0
  rw [← hc0] at hsp hminus hplus
  have htake : (c0 :: rest).takeWhile Char.isDigit = c0 :: rest := by
    rw [List.takeWhile_eq_self_iff]
    intro c hc
    obtain ⟨d, hd, rfl⟩ := hl c hc
    exact (digitChar_props d hd).1
  have hm45 : isspace (Char.ofNat 45) = false := by decide
  constructor
  · intro hle
    unfold stoi
    simp only [String.toList, List.dropWhile_cons, hsp, Bool.false_eq_true, if_false,
      List.head?_cons, Option.some.injEq, hminus, hplus, or_self, htake, List.isEmpty_cons,
      decide_False]
    rw [if_neg (by omega)]
  · intro hle
    unfold stoi
    simp only [String.toList, List.dropWhile_cons, hm45, Bool.false_eq_true, if_false,
      List.head?_cons, true_or, if_true, List.tail_cons, htake, List.isEmpty_cons,
      decide_True]
    rw [if_neg (by omega)]

/-- `std::stoi` reads back the `int` that `std::to_string` wrote. -/
theorem stoi_to_string (n : Int) (h1 : -2147483648 ≤ n) (h2 : n ≤ 2147483647) :
    stoi (to_string n) = .ok n := by
  cases n with
  | ofNat m =>
    obtain ⟨a, b, c⟩ := toDigitsCore_spec (m + 1) m (by omega)
    have hs : to_string (Int.ofNat m) = String.mk (Nat.toDigitsCore 10 (m + 1) m []) := rfl
    have h2n : (m : Int) ≤ 2147483647 := h2
    have := (stoi_digits _ a b).1 (by rw [c]; omega)
    rw [hs, this, c]
    rfl
  | negSucc m =>
    obtain ⟨a, b, c⟩ := toDigitsCore_spec (m + 1 + 1) (m + 1) (by omega)
    have hs : to_string (Int.negSucc m) =
        String.mk (Char.ofNat 45 :: Nat.toDigitsCore 10 (m + 1 + 1) (m + 1) []) := rfl
    have h1n : -2147483648 ≤ -((m : Int) + 1) := by rw [← Int.negSucc_eq]; exact h1
    have := (stoi_digits _ a b).2 (by rw [c]; omega)
    rw [hs, this, c]
    rfl

/-- C8: constructing a `TruncCompressor` from a string map succeeds exactly when
both keys are present and the integers read from their values satisfy
`0 ≤ compressionLevel ≤ 9` and `0 ≤ mantissaBits ≤ 23`; in every other case the
constructor raises; on success the getters return the integers read, unclamped.
In particular, when the values are the decimal renderings of two `int`s `L` and
`M`, construction succeeds iff `L` is in [0,9] and `M` in [0,23], and then the
getters return `M` and `L`; a missing key raises. -/
theorem fromConfig_succeeds_iff (config : ConfigMap) :
    ((∃ c, TruncCompressor.fromConfig config = .ok c) ↔
      ∃ sl sm L M, config.find "compressionLevel" = some sl ∧
        config.find "mantissaBits" = some sm ∧ stoi sl = .ok L ∧ stoi sm = .ok M ∧
        0 ≤ L ∧ L ≤ 9 ∧ 0 ≤ M ∧ M ≤ 23) ∧
    ((¬ ∃ c, TruncCompressor.fromConfig config = .ok c) →
      ∃ e, TruncCompressor.fromConfig config = .error e) ∧
    (∀ c, TruncCompressor.fromConfig config = .ok c →
      ∃ sl sm, config.find "compressionLevel" = some sl ∧
        config.find "mantissaBits" = some sm ∧
        stoi sl = .ok c.getCompressionLevel ∧ stoi sm = .ok c.getMantissaBits) ∧
    (∀ L M : Int, -2147483648 ≤ L → L ≤ 2147483647 → -2147483648 ≤ M → M ≤ 2147483647 →
      config.find "compressionLevel" = some (to_string L) →
      config.find "mantissaBits" = some (to_string M) →
      ((∃ c, TruncCompressor.fromConfig config = .ok c) ↔ (0 ≤ L ∧ L ≤ 9 ∧ 0 ≤ M ∧ M ≤ 23)) ∧
      ∀ c, TruncCompressor.fromConfig config = .ok c →
        c.getMantissaBits = M ∧ c.getCompressionLevel = L) ∧
    (config.find "compressionLevel" = none ∨ config.find "mantissaBits" = none →
      ∃ e, TruncCompressor.fromConfig config = .error e) := by
  refine ⟨?_, fromConfig_error_of_not_ok config, ?_, ?_, ?_⟩
  · constructor
    · rintro ⟨c, hc⟩
      obtain ⟨sl, sm, L, M, h1, h2, h3, h4, h5, h6, h7, h8, _⟩ :=
        (fromConfig_eq_ok_iff config c).mp hc
      exact ⟨sl, sm, L, M, h1, h2, h3, h4, h5, h6, h7, h8⟩
    · rintro ⟨sl, sm, L, M, h1, h2, h3, h4, h5, h6, h7, h8⟩
      exact ⟨⟨M, L⟩, (fromConfig_eq_ok_iff config _).mpr
        ⟨sl, sm, L, M, h1, h2, h3, h4, h5, h6, h7, h8, rfl⟩⟩
  · intro c hc
    obtain ⟨sl, sm, L, M, h1, h2, h3, h4, _, _, _, _, h9⟩ :=
      (fromConfig_eq_ok_iff config c).mp hc
    subst h9
    exact ⟨sl, sm, h1, h2, h3, h4⟩
  · intro L M hL1 hL2 hM1 hM2 hfl hfm
    have key : ∀ c, TruncCompressor.fromConfig config = .ok c →
        0 ≤ L ∧ L ≤ 9 ∧ 0 ≤ M ∧ M ≤ 23 ∧ c = ⟨M, L⟩ := by
      intro c hc
      obtain ⟨sl, sm, L1, M1, h1, h2, h3, h4, h5, h6, h7, h8, h9⟩ :=
        (fromConfig_eq_ok_iff config c).mp hc
      rw [hfl] at h1
      rw [hfm] at h2
      cases h1
      cases h2
      rw [stoi_to_string L hL1 hL2] at h3
      rw [stoi_to_string M hM1 hM2] at h4
      cases h3
      cases h4
      exact ⟨h5, h6, h7, h8, h9⟩
    refine ⟨⟨?_, ?_⟩, ?_⟩
    · rintro ⟨c, hc⟩
      obtain ⟨h5, h6, h7, h8, _⟩ := key c hc
      exact ⟨h5, h6, h7, h8⟩
    · rintro ⟨h5, h6, h7, h8⟩
      exact ⟨⟨M, L⟩, (fromConfig_eq_ok_iff config _).mpr
        ⟨_, _, L, M, hfl, hfm, stoi_to_string L hL1 hL2, stoi_to_string M hM1 hM2,
          h5, h6, h7, h8, rfl⟩⟩
    · intro c hc
      obtain ⟨_, _, _, _, h9⟩ := key c hc
      subst h9
      exact ⟨rfl, rfl⟩
  · intro hmiss
    apply fromConfig_error_of_not_ok
    rintro ⟨c, hc⟩
    obtain ⟨sl, sm, L, M, h1, h2, _⟩ := (fromConfig_eq_ok_iff config c).mp hc
    rcases hmiss with h | h
    · rw [h] at h1; cases h1
    · rw [h] at h2; cases h2

/-- The three rejected configurations named by C8, and an accepted one. -/
theorem fromConfig_examples :
    TruncCompressor.fromConfig [("compressionLevel", "5"), ("mantissaBits", "24")] =
      .error (.invalid_argument "mantissaBits must be in [0,23]") ∧
    TruncCompressor.fromConfig [("compressionLevel", "-1"), ("mantissaBits", "13")] =
      .error (.invalid_argument "compressionLevel must be in [0,9]") ∧
    TruncCompressor.fromConfig [("compressionLevel", "5")] =
      .error (.invalid_argument "mantissaBits is required in TruncCompressor config") ∧
    TruncCompressor.fromConfig [("compressionLevel", "5"), ("mantissaBits", "13")] =
      .ok ⟨13, 5⟩ :=
  ⟨rfl, rfl, rfl, rfl⟩

/-- The successful runs of the `SZ3Compressor` map constructor found every key
and read a positive error bound. -/
theorem fromOptions_ok_needs (env : SZ3Env) (init : SZ3Compressor) (options : ConfigMap)
    (c : SZ3Compressor) (h : SZ3Compressor.fromOptions env init options = .ok c) :
    options.find "algorithm" ≠ none ∧ options.find "errorBoundMode" ≠ none ∧
    ∃ sv v, options.find "errorBoundValue" = some sv ∧ env.stod sv = .ok v ∧
      v.leZero = false := by
  unfold SZ3Compressor.fromOptions at h
  simp only [bind, Except.bind] at h
  cases ha : options.find "algorithm" with
  | none => rw [ha] at h; cases h
  | some sa =>
    rw [ha] at h
    simp only at h
    cases hsa : stoi sa with
    | error e => rw [hsa] at h; cases h
    | ok a =>
      rw [hsa] at h
      simp only at h
      cases hc1 : SZ3Compressor.setAlgorithm env init a with
      | error e => rw [hc1] at h; cases h
      | ok c1 =>
        rw [hc1] at h
        simp only at h
        cases hm : options.find "errorBoundMode" with
        | none => rw [hm] at h; cases h
        | some sm =>
          rw [hm] at h
          simp only at h
          cases hsm : stoi sm with
          | error e => rw [hsm] at h; cases h
          | ok m =>
            rw [hsm] at h
            simp only at h
            cases hc2 : SZ3Compressor.setErrorBoundMode env c1 m with
            | error e => rw [hc2] at h; cases h
            | ok c2 =>
              rw [hc2] at h
              simp only at h
              cases hv : options.find "errorBoundValue" with
              | none => rw [hv] at h; cases h
              | some sv =>
                rw [hv] at h
                simp only at h
                cases hsv : env.stod sv with
                | error e => rw [hsv] at h; cases h
                | ok v =>
                  rw [hsv] at h
                  simp only [SZ3Compressor.setErrorBound] at h
                  cases hz : v.leZero with
                  | true => rw [hz] at h; cases h
                  | false => exact ⟨by simp, by simp, sv, v, rfl, hsv, hz⟩

/-- C9: constructing an `SZ3Compressor` from a string map raises whenever one of
the keys `algorithm`, `errorBoundMode`, `errorBoundValue` is missing or the
error bound read from the map is `<= 0`; the three-argument constructor raises
whenever its `errorBound` is `<= 0`. -/
theorem SZ3_construction_raises (env : SZ3Env) (init : SZ3Compressor) (options : ConfigMap)
    (h : options.find "algorithm" = none ∨ options.find "errorBoundMode" = none ∨
      options.find "errorBoundValue" = none ∨
      ∃ sv v, options.find "errorBoundValue" = some sv ∧ env.stod sv = .ok v ∧
        v.leZero = true) :
    (∃ e, SZ3Compressor.fromOptions env init options = .error e) ∧
    (∀ (algorithm errorBoundMode : Int) (errorBound : F64), errorBound.leZero = true →
      ∃ e, SZ3Compressor.new env algorithm errorBoundMode errorBound = .error e) := by
  constructor
  · cases hc : SZ3Compressor.fromOptions env init options with
    | error e => exact ⟨e, rfl⟩
    | ok c =>
      exfalso
      obtain ⟨h1, h2, sv, v, h3, h4, h5⟩ := fromOptions_ok_needs env init options c hc
      rcases h with h | h | h | ⟨sv1, v1, h6, h7, h8⟩
      · exact h1 h
      · exact h2 h
      · rw [h] at h3; cases h3
      · rw [h6] at h3
        cases h3
        rw [h7] at h4
        cases h4
        rw [h8] at h5
        cases h5
  · intro algorithm errorBoundMode errorBound hb
    unfold SZ3Compressor.new
    simp only [bind, Except.bind]
    cases SZ3Compressor.setAlgorithm env ⟨errorBoundMode, algorithm, errorBound⟩ algorithm with
    | error e => exact ⟨e, rfl⟩
    | ok c1 =>
      simp only
      cases SZ3Compressor.setErrorBoundMode env c1 errorBoundMode with
      | error e => exact ⟨e, rfl⟩
      | ok c2 =>
        simp only [SZ3Compressor.setErrorBound, hb, if_true]
        exact ⟨_, rfl⟩

/-- Witness for C9: an error bound of `0` in the map, and `-1/2` as third argument. -/
theorem SZ3_construction_raises_witness :
    (∃ e, SZ3Compressor.fromOptions sampleSZ3Env ⟨0, 0, .nan⟩
      [("algorithm", "1"), ("errorBoundMode", "0"), ("errorBoundValue", "0")] = .error e) ∧
    (∃ e, SZ3Compressor.new sampleSZ3Env 1 0 (.finite (-1 / 2)) = .error e) :=
  have h := SZ3_construction_raises sampleSZ3Env ⟨0, 0, .nan⟩
    [("algorithm", "1"), ("errorBoundMode", "0"), ("errorBoundValue", "0")]
    (Or.inr (Or.inr (Or.inr ⟨"0", .finite 0, rfl, rfl, by decide⟩)))
  ⟨h.1, h.2 1 0 (.finite (-1 / 2)) (by norm_num [F64.leZero])⟩

/-! ## The container returned by `compress` -/

/-- C10: for both codecs, whenever `compress` succeeds the returned
`CompressedData` has `numFloats` equal to the number of input elements, whatever
bytes the external compressor produced, and `compressorConfig` equal to the
codec's `getConfig()`, which holds every configuration key of the codec
(`mantissaBits` and `compressionLevel`; `algorithm`, `errorBoundMode` and
`errorBoundValue`). -/
theorem compress_metadata (z : Zlib) (c : TruncCompressor) (env : SZ3Env) (s : SZ3Compressor)
    (data : List Nat) :
    (∀ cd, TruncCompressor.compress z c data = .ok cd →
      cd.numFloats = data.length ∧ cd.compressorConfig = c.getConfig ∧
      cd.compressorConfig.find "mantissaBits" = some (to_string c.getMantissaBits) ∧
      cd.compressorConfig.find "compressionLevel" = some (to_string c.getCompressionLevel)) ∧
    (∀ cd, SZ3Compressor.compress env s data = .ok cd →
      cd.numFloats = data.length ∧ cd.compressorConfig = s.getConfig env ∧
      cd.compressorConfig.find "algorithm" = some (to_string s.getAlgorithm) ∧
      cd.compressorConfig.find "errorBoundMode" = some (to_string s.getErrorBoundMode) ∧
      cd.compressorConfig.find "errorBoundValue" =
        some (env.to_string_double s.getErrorBound)) := by
  constructor
  · intro cd h
    unfold TruncCompressor.compress at h
    simp only at h
    split at h
    · cases h
    · cases h
      refine ⟨rfl, rfl, ?_, ?_⟩
      · simp [TruncCompressor.getConfig, ConfigMap.find, List.lookup,
          TruncCompressor.getMantissaBits]
      · simp [TruncCompressor.getConfig, ConfigMap.find, List.lookup,
          TruncCompressor.getCompressionLevel]
  · intro cd h
    unfold SZ3Compressor.compress at h
    simp only at h
    split at h
    · cases h
    · cases h
      refine ⟨rfl, rfl, ?_, ?_, ?_⟩
      · simp [SZ3Compressor.getConfig, ConfigMap.find, List.lookup, SZ3Compressor.getAlgorithm]
      · simp [SZ3Compressor.getConfig, ConfigMap.find, List.lookup,
          SZ3Compressor.getErrorBoundMode]
      · simp [SZ3Compressor.getConfig, ConfigMap.find, List.lookup,
          SZ3Compressor.getErrorBound]

/-- Witness for C10: both codecs compress two floats with the sample
environments, and the container records two elements and the configuration. -/
theorem compress_metadata_witness :
    (∃ cd, TruncCompressor.compress storedZlib ⟨13, 5⟩ [0x3FFFFFFF, 0x40490FDB] = .ok cd ∧
      cd.numFloats = 2 ∧
      cd.compressorConfig = [("compressionLevel", "5"), ("mantissaBits", "13")]) ∧
    (∃ cd, SZ3Compressor.compress sampleSZ3Env ⟨0, 1, .finite 1⟩ [0x3FFFFFFF, 0x40490FDB]
        = .ok cd ∧
      cd.numFloats = 2 ∧
      cd.compressorConfig =
        [("algorithm", "1"), ("errorBoundMode", "0"), ("errorBoundValue", "1.000000")]) :=
  have h := compress_metadata storedZlib ⟨13, 5⟩ sampleSZ3Env ⟨0, 1, .finite 1⟩
    [0x3FFFFFFF, 0x40490FDB]
  ⟨⟨_, rfl, (h.1 _ rfl).1, (h.1 _ rfl).2.1⟩, ⟨_, rfl, (h.2 _ rfl).1, (h.2 _ rfl).2.1⟩⟩

/-! ## Rebuilding a codec from its configuration, decoding, idempotence -/

/-- C11: for every `TruncCompressor` `c` with `mantissaBits` in [0,23] and
`compressionLevel` in [0,9], constructing a `TruncCompressor` from the map
`c.getConfig()` succeeds and yields a codec with the same `mantissaBits` and
`compressionLevel` (indeed the same codec). -/
theorem fromConfig_getConfig (c : TruncCompressor)
    (hm : 0 ≤ c.mantissaBits_ ∧ c.mantissaBits_ ≤ 23)
    (hl : 0 ≤ c.compressionLevel_ ∧ c.compressionLevel_ ≤ 9) :
    TruncCompressor.fromConfig c.getConfig = .ok c ∧
    ∃ c2, TruncCompressor.fromConfig c.getConfig = .ok c2 ∧
      c2.getMantissaBits = c.getMantissaBits ∧
      c2.getCompressionLevel = c.getCompressionLevel := by
  have h : TruncCompressor.fromConfig c.getConfig = .ok c := by
    rw [fromConfig_eq_ok_iff]
    refine ⟨to_string c.compressionLevel_, to_string c.mantissaBits_, c.compressionLevel_,
      c.mantissaBits_, ?_, ?_, stoi_to_string _ (by omega) (by omega),
      stoi_to_string _ (by omega) (by omega), hl.1, hl.2, hm.1, hm.2, rfl⟩
    · simp [TruncCompressor.getConfig, ConfigMap.find, List.lookup]
    · simp [TruncCompressor.getConfig, ConfigMap.find, List.lookup]
  exact ⟨h, c, h, rfl, rfl⟩

/-- Witness for C11: the codec with `mantissaBits = 13` and `compressionLevel = 5`. -/
theorem fromConfig_getConfig_witness :
    TruncCompressor.fromConfig (TruncCompressor.getConfig ⟨13, 5⟩) = .ok ⟨13, 5⟩ ∧
    ∃ c2, TruncCompressor.fromConfig (TruncCompressor.getConfig ⟨13, 5⟩) = .ok c2 ∧
      c2.getMantissaBits = TruncCompressor.getMantissaBits ⟨13, 5⟩ ∧
      c2.getCompressionLevel = TruncCompressor.getCompressionLevel ⟨13, 5⟩ :=
  fromConfig_getConfig ⟨13, 5⟩ (by decide) (by decide)

theorem bytesToFloats_length (bs : List Nat) (n : Nat) (h : bs.length = n * 4) :
    (bytesToFloats bs).length = n := by
  induction n generalizing bs with
  | zero =>
    have : bs = [] := List.length_eq_zero.mp (by omega)
    subst this
    rfl
  | succ n ih =>
    match bs, h with
    | b0 :: b1 :: b2 :: b3 :: rest, h =>
      simp only [bytesToFloats, List.length_cons]
      rw [ih rest (by simp only [List.length_cons] at h; omega)]
    | [], h => simp at h
    | [_], h => simp at h; omega
    | [_, _], h => simp at h; omega
    | [_, _, _], h => simp at h; omega

theorem floatsToBytes_bytesToFloats (bs : List Nat) (n : Nat) (h : bs.length = n * 4)
    (hb : ∀ b ∈ bs, b < 256) : floatsToBytes (bytesToFloats bs) = bs := by
  induction n generalizing bs with
  | zero =>
    have : bs = [] := List.length_eq_zero.mp (by omega)
    subst this
    rfl
  | succ n ih =>
    match bs, h, hb with
    | b0 :: b1 :: b2 :: b3 :: rest, h, hb =>
      have h0 : b0 < 256 := hb b0 (by simp)
      have h1 : b1 < 256 := hb b1 (by simp)
      have h2 : b2 < 256 := hb b2 (by simp)
      have h3 : b3 < 256 := hb b3 (by simp)
      have hrest : ∀ b ∈ rest, b < 256 := fun b hm => hb b (by simp [hm])
      have hlen : rest.length = n * 4 := by simp only [List.length_cons] at h; omega
      simp only [bytesToFloats, floatsToBytes, floatBytes, ih rest hlen hrest,
        List.cons_append, List.nil_append]
      congr 1
      · omega
      · congr 1
        · omega
        · congr 1
          · omega
          · congr 1
            omega
    | [], h, _ => simp at h
    | [_], h, _ => simp at h; omega
    | [_, _], h, _ => simp at h; omega
    | [_, _, _], h, _ => simp at h; omega

/-- The outcomes of `TruncCompressor::decompress` in terms of what `uncompress`
reports: it raises when `uncompress` fails and when it succeeds with a byte
count other than `numFloats * 4`; when it returns, `uncompress` succeeded and
the result has `numFloats` floats whose bytes are what `uncompress` wrote. -/
theorem decompress_of_uncompress (z : Zlib) (cd : CompressedData) :
    (z.uncompress cd.data (cd.numFloats * 4) = none →
      TruncCompressor.decompress z cd = .error (.runtime_error "zlib uncompress failed")) ∧
    (∀ inflated, z.uncompress cd.data (cd.numFloats * 4) = some inflated →
      inflated.length ≠ cd.numFloats * 4 →
      TruncCompressor.decompress z cd = .error (.runtime_error "Decompressed size mismatch")) ∧
    (∀ out, TruncCompressor.decompress z cd = .ok out →
      out.length = cd.numFloats ∧
      ∃ inflated, z.uncompress cd.data (cd.numFloats * 4) = some inflated ∧
        inflated.length = cd.numFloats * 4 ∧ out = bytesToFloats inflated ∧
        ((∀ b ∈ inflated, b < 256) → floatsToBytes out = inflated)) := by
  refine ⟨?_, ?_, ?_⟩
  · intro h
    unfold TruncCompressor.decompress
    rw [h]
  · intro inflated h hne
    unfold TruncCompressor.decompress
    rw [h]
    simp only [hne, ne_eq, not_false_eq_true, if_true]
  · intro out h
    unfold TruncCompressor.decompress at h
    cases hu : z.uncompress cd.data (cd.numFloats * 4) with
    | none => rw [hu] at h; cases h
    | some inflated =>
      rw [hu] at h
      simp only at h
      by_cases hlen : inflated.length = cd.numFloats * 4
      · rw [if_neg (by simpa using hlen)] at h
        cases h
        exact ⟨bytesToFloats_length _ _ hlen, inflated, rfl, hlen, rfl,
          fun hb => floatsToBytes_bytesToFloats _ _ hlen hb⟩
      · rw [if_pos (by simpa using hlen)] at h
        cases h

/-- `TruncCompressor::decompress` over zlib's `uncompress`, by what the stream
inflates to. A stream that does not inflate raises, and so does one whose
content is longer or shorter than `numFloats * 4` bytes, except that for
`numFloats = 0` a content of one byte is let through and nothing is returned;
a content of `numFloats * 4` bytes is returned as `numFloats` floats. -/
theorem decompress_uncompress2 (compressBound : Nat → Nat)
    (compress2 : List Nat → Nat → Int → Option (List Nat))
    (inflate : List Nat → Option (List Nat)) (cd : CompressedData) :
    TruncCompressor.decompress ⟨compressBound, compress2, uncompress2 inflate⟩ cd =
      match inflate cd.data with
      | none => .error (.runtime_error "zlib uncompress failed")
      | some content =>
        if cd.numFloats = 0 then
          (if content.length ≤ 1 then .ok []
           else .error (.runtime_error "zlib uncompress failed"))
        else if cd.numFloats * 4 < content.length then
          .error (.runtime_error "zlib uncompress failed")
        else if content.length < cd.numFloats * 4 then
          .error (.runtime_error "Decompressed size mismatch")
        else .ok (bytesToFloats content) := by
  unfold TruncCompressor.decompress uncompress2
  simp only
  cases hi : inflate cd.data with
  | none => rfl
  | some content =>
    simp only
    by_cases h0 : cd.numFloats = 0
    · simp only [h0, Nat.zero_mul, ne_eq, not_true_eq_false, if_false, if_true]
      by_cases h1 : content.length ≤ 1
      · simp only [h1, if_true]
        rfl
      · simp only [h1, if_false]
    · have h4 : cd.numFloats * 4 ≠ 0 := by omega
      simp only [h0, h4, ne_eq, not_false_eq_true, if_true, if_false]
      by_cases h2 : content.length ≤ cd.numFloats * 4
      · rw [if_pos h2, if_neg (by omega)]
        by_cases h3 : content.length = cd.numFloats * 4
        · simp only [h3, not_true_eq_false, if_false, lt_self_iff_false]
        · simp only [h3, not_false_eq_true, if_true]
          rw [if_pos (by omega)]
      · rw [if_neg h2, if_pos (by omega)]

/-- C13, where the code departs from the claim. The twelve bytes
`78 01 01 01 00 FE FF 41 00 42 00 42` are a zlib stream that inflates to the
one byte `41`. Declared as `numFloats = 0`, the inflated data is longer than
`numFloats * 4 = 0` bytes, and `TruncCompressor::decompress` raises nothing: it
returns an empty vector, because `uncompress` with an empty destination
inflates the byte into a buffer of its own and reports `Z_OK` with a size of
`0`. This holds whatever the deflate side of zlib does. The same call on a
stream of two bytes raises, and so does the one-byte stream declared as one
float, as the claim says they should. -/
theorem decompress_zero_floats_one_byte (compressBound : Nat → Nat)
    (compress2 : List Nat → Nat → Int → Option (List Nat)) :
    inflateStored [0x78, 0x01, 0x01, 0x01, 0x00, 0xFE, 0xFF, 0x41, 0x00, 0x42, 0x00, 0x42]
      = some [0x41] ∧
    TruncCompressor.decompress ⟨compressBound, compress2, uncompress2 inflateStored⟩
        ⟨[0x78, 0x01, 0x01, 0x01, 0x00, 0xFE, 0xFF, 0x41, 0x00, 0x42, 0x00, 0x42], 0, []⟩
      = .ok [] ∧
    TruncCompressor.decompress ⟨compressBound, compress2, uncompress2 inflateStored⟩
        ⟨[0x78, 0x01, 0x01, 0x02, 0x00, 0xFD, 0xFF, 0x41, 0x42, 0x00, 0xC6, 0x00, 0x84], 0, []⟩
      = .error (.runtime_error "zlib uncompress failed") ∧
    TruncCompressor.decompress ⟨compressBound, compress2, uncompress2 inflateStored⟩
        ⟨[0x78, 0x01, 0x01, 0x01, 0x00, 0xFE, 0xFF, 0x41, 0x00, 0x42, 0x00, 0x42], 1, []⟩
      = .error (.runtime_error "Decompressed size mismatch") :=
  ⟨rfl, rfl, rfl, rfl⟩

/-- The loop body applied twice is the loop body applied once. -/
theorem truncate_one_idem (u k : Nat) (hk : k ≤ 23) :
    truncate_one (truncate_one u (k : Int)) (k : Int) = truncate_one u (k : Int) := by
  by_cases h23 : k = 23
  · subst h23
    unfold truncate_one
    simp
  · have hk22 : k ≤ 22 := by omega
    rw [truncate_one_eq _ k hk22, truncate_one_eq u k hk22]
    have hP := two_pow_pred (23 - k) (by omega)
    have hs : 23 - k - 1 = 22 - k := by omega
    rw [hs] at hP
    have hpos : 0 < 2 ^ (22 - k) := Nat.pos_pow_of_pos _ (by norm_num)
    have hle : 2 ^ (23 - k) ≤ 2 ^ 23 := Nat.pow_le_pow_right (by norm_num) (by omega)
    have hdvd32 : 2 ^ (23 - k) ∣ 2 ^ 32 := Nat.pow_dvd_pow 2 (by omega)
    generalize hx : (u + 2 ^ (22 - k)) % 2 ^ 32 = x
    have hxlt : x < 2 ^ 32 := by rw [← hx]; exact Nat.mod_lt _ (by norm_num)
    have hd : 2 ^ (23 - k) ∣ x / 2 ^ (23 - k) * 2 ^ (23 - k) := Nat.dvd_mul_left _ _
    have hlex : x / 2 ^ (23 - k) * 2 ^ (23 - k) ≤ x := Nat.div_mul_le_self _ _
    have hgap : x / 2 ^ (23 - k) * 2 ^ (23 - k) + 2 ^ (23 - k) ≤ 2 ^ 32 :=
      mult_gap _ _ _ hd hdvd32 (by omega)
    rw [Nat.mod_eq_of_lt (by omega)]
    exact div_mul_unique _ _ _ hd (by omega) (by omega)

/-- C20: mantissa truncation is idempotent: for `mantissaBits = k` in [0,23] and
every input sequence, truncating the truncated sequence again changes nothing. -/
theorem truncate_mantissas_idempotent (k : Nat) (hk : k ≤ 23) (x : List Nat) :
    truncate_mantissas (truncate_mantissas x (k : Int)) (k : Int) =
      truncate_mantissas x (k : Int) := by
  rw [truncate_mantissas_eq_map _ k hk, truncate_mantissas_eq_map x k hk, List.map_map]
  apply List.map_congr_left
  intro u _
  exact truncate_one_idem u k hk

/-- Witness for C20: `mantissaBits = 13` on three patterns. -/
theorem truncate_mantissas_idempotent_witness :
    truncate_mantissas (truncate_mantissas [0x3FFFFFFF, 0x40490FDB, 0xFFFFFFFF]
        ((13 : Nat) : Int)) ((13 : Nat) : Int) =
      truncate_mantissas [0x3FFFFFFF, 0x40490FDB, 0xFFFFFFFF] ((13 : Nat) : Int) :=
  truncate_mantissas_idempotent 13 (by decide) [0x3FFFFFFF, 0x40490FDB, 0xFFFFFFFF]

/-! ## Rebuilding an `SZ3Compressor` from its configuration -/

/-- The map constructor applied to `getConfig()` of a codec with valid
algorithm and mode: the error bound is read back by `stod` from its rendering. -/
theorem fromOptions_getConfig_eq (env : SZ3Env) (init c : SZ3Compressor)
    (ha : c.algorithm_ = env.ALGO_LORENZO_REG ∨ c.algorithm_ = env.ALGO_INTERP_LORENZO ∨
      c.algorithm_ = env.ALGO_INTERP ∨ c.algorithm_ = env.ALGO_NOPRED ∨
      c.algorithm_ = env.ALGO_LOSSLESS)
    (hm : c.errorBoundMode_ = env.EB_ABS ∨ c.errorBoundMode_ = env.EB_REL)
    (hra : -2147483648 ≤ c.algorithm_ ∧ c.algorithm_ ≤ 2147483647)
    (hrm : -2147483648 ≤ c.errorBoundMode_ ∧ c.errorBoundMode_ ≤ 2147483647) :
    SZ3Compressor.fromOptions env init (c.getConfig env) =
      match env.stod (env.to_string_double c.errorBound_) with
      | .error e => .error e
      | .ok v =>
        if v.leZero then .error (.invalid_argument "Error bound must be positive")
        else .ok ⟨c.errorBoundMode_, c.algorithm_, v⟩ := by
  have f1 : ConfigMap.find (c.getConfig env) "algorithm" = some (to_string c.algorithm_) := by
    simp [SZ3Compressor.getConfig, ConfigMap.find, List.lookup]
  have f2 : ConfigMap.find (c.getConfig env) "errorBoundMode" =
      some (to_string c.errorBoundMode_) := by
    simp [SZ3Compressor.getConfig, ConfigMap.find, List.lookup]
  have f3 : ConfigMap.find (c.getConfig env) "errorBoundValue" =
      some (env.to_string_double c.errorBound_) := by
    simp [SZ3Compressor.getConfig, ConfigMap.find, List.lookup]
  unfold SZ3Compressor.fromOptions
  simp only [f1, f2, f3, stoi_to_string _ hra.1 hra.2, stoi_to_string _ hrm.1 hrm.2, bind,
    Except.bind, SZ3Compressor.setAlgorithm, SZ3Compressor.setErrorBoundMode, if_pos ha,
    if_pos hm, SZ3Compressor.setErrorBound]
  cases env.stod (env.to_string_double c.errorBound_) with
  | error e => rfl
  | ok v => cases v.leZero <;> rfl

/-- A codec returned by the three-argument constructor holds the arguments,
which passed the three checks. -/
theorem new_ok_fields (env : SZ3Env) (a m : Int) (e : F64) (c : SZ3Compressor)
    (h : SZ3Compressor.new env a m e = .ok c) :
    c = ⟨m, a, e⟩ ∧
    (a = env.ALGO_LORENZO_REG ∨ a = env.ALGO_INTERP_LORENZO ∨ a = env.ALGO_INTERP ∨
      a = env.ALGO_NOPRED ∨ a = env.ALGO_LOSSLESS) ∧
    (m = env.EB_ABS ∨ m = env.EB_REL) ∧ e.leZero = false := by
  unfold SZ3Compressor.new at h
  simp only [bind, Except.bind, SZ3Compressor.setAlgorithm, SZ3Compressor.setErrorBoundMode,
    SZ3Compressor.setErrorBound] at h
  by_cases ha : a = env.ALGO_LORENZO_REG ∨ a = env.ALGO_INTERP_LORENZO ∨ a = env.ALGO_INTERP ∨
      a = env.ALGO_NOPRED ∨ a = env.ALGO_LOSSLESS
  · rw [if_pos ha] at h
    simp only at h
    by_cases hm : m = env.EB_ABS ∨ m = env.EB_REL
    · rw [if_pos hm] at h
      simp only at h
      cases hz : e.leZero with
      | true => rw [hz] at h; simp at h
      | false =>
        rw [hz] at h
        simp only [Bool.false_eq_true, if_false] at h
        cases h
        exact ⟨rfl, ha, hm, rfl⟩
    · rw [if_neg hm] at h
      cases h
  · rw [if_neg ha] at h
    cases h

/-- C12 (evaluation): the codec built with `ALGO_INTERP_LORENZO`, `EB_ABS` and
the error bound `2^-24` is constructible and its error bound is positive, but
`getConfig()` renders the bound as `0.000000`, which `std::stod` reads as `0`,
and constructing a codec from that map raises. -/
theorem SZ3_rebuild_raises :
    SZ3Compressor.new stdSZ3Env 1 0 (.finite (mkRat 1 16777216))
      = .ok ⟨0, 1, .finite (mkRat 1 16777216)⟩ ∧
    (0 : ℚ) < mkRat 1 16777216 ∧
    SZ3Compressor.getConfig stdSZ3Env ⟨0, 1, .finite (mkRat 1 16777216)⟩ =
      [("algorithm", "1"), ("errorBoundMode", "0"), ("errorBoundValue", "0.000000")] ∧
    SZ3Compressor.fromOptions stdSZ3Env ⟨0, 0, .nan⟩
        (SZ3Compressor.getConfig stdSZ3Env ⟨0, 1, .finite (mkRat 1 16777216)⟩)
      = .error (.invalid_argument "Error bound must be positive") :=
  ⟨rfl, by decide, rfl, rfl⟩

/-- What the map constructor makes of `getConfig()`: for every `SZ3Compressor`
`c` returned by the three-argument constructor, constructing a codec from the
map `c.getConfig()` reads back the
algorithm and the mode of `c` and, as error bound, the value `v` that `std::stod`
reads in the `std::to_string` rendering of the error bound of `c`. It succeeds
exactly when that reading succeeds and `v <= 0` is false, and the codec built
then has the algorithm and mode of `c` and the error bound `v`; it is `c` itself
whenever `v` is the error bound of `c`. -/
theorem SZ3_fromOptions_getConfig (env : SZ3Env) (init : SZ3Compressor) (a m : Int) (e : F64)
    (c : SZ3Compressor) (hc : SZ3Compressor.new env a m e = .ok c)
    (hra : -2147483648 ≤ a ∧ a ≤ 2147483647) (hrm : -2147483648 ≤ m ∧ m ≤ 2147483647) :
    (∀ c2, SZ3Compressor.fromOptions env init (c.getConfig env) = .ok c2 ↔
      ∃ v, env.stod (env.to_string_double c.getErrorBound) = .ok v ∧ v.leZero = false ∧
        c2 = ⟨c.getErrorBoundMode, c.getAlgorithm, v⟩) ∧
    (env.stod (env.to_string_double c.getErrorBound) = .ok c.getErrorBound →
      SZ3Compressor.fromOptions env init (c.getConfig env) = .ok c) := by
  obtain ⟨hceq, ha, hm, hz⟩ := new_ok_fields env a m e c hc
  subst hceq
  have key := fromOptions_getConfig_eq env init ⟨m, a, e⟩ ha hm hra hrm
  simp only [SZ3Compressor.getErrorBound, SZ3Compressor.getErrorBoundMode,
    SZ3Compressor.getAlgorithm] at *
  constructor
  · intro c2
    rw [key]
    cases hs : env.stod (env.to_string_double e) with
    | error err =>
      simp only
      constructor
      · intro h; cases h
      · rintro ⟨v, hv, _⟩; cases hv
    | ok v =>
      simp only
      cases hv : v.leZero with
      | true =>
        simp only [if_true]
        constructor
        · intro h; cases h
        · rintro ⟨v1, h1, h2, _⟩
          cases h1
          rw [hv] at h2
          cases h2
      | false =>
        simp only [Bool.false_eq_true, if_false]
        constructor
        · intro h
          cases h
          exact ⟨v, rfl, hv, rfl⟩
        · rintro ⟨v1, h1, _, h3⟩
          cases h1
          rw [h3]
  · intro hs
    rw [key, hs]
    simp only [hz, Bool.false_eq_true, if_false]

/-- The previous statement at the codec with error bound `2^-24`. -/
theorem SZ3_fromOptions_getConfig_example :
    (∀ c2, SZ3Compressor.fromOptions stdSZ3Env ⟨0, 0, .nan⟩
        (SZ3Compressor.getConfig stdSZ3Env ⟨0, 1, .finite (mkRat 1 16777216)⟩) = .ok c2 ↔
      ∃ v, stdSZ3Env.stod (stdSZ3Env.to_string_double
          (SZ3Compressor.getErrorBound ⟨0, 1, .finite (mkRat 1 16777216)⟩)) = .ok v ∧
        v.leZero = false ∧
        c2 = ⟨SZ3Compressor.getErrorBoundMode ⟨0, 1, .finite (mkRat 1 16777216)⟩,
          SZ3Compressor.getAlgorithm ⟨0, 1, .finite (mkRat 1 16777216)⟩, v⟩) ∧
    (stdSZ3Env.stod (stdSZ3Env.to_string_double
        (SZ3Compressor.getErrorBound ⟨0, 1, .finite (mkRat 1 16777216)⟩)) =
        .ok (SZ3Compressor.getErrorBound ⟨0, 1, .finite (mkRat 1 16777216)⟩) →
      SZ3Compressor.fromOptions stdSZ3Env ⟨0, 0, .nan⟩
        (SZ3Compressor.getConfig stdSZ3Env ⟨0, 1, .finite (mkRat 1 16777216)⟩) =
        .ok ⟨0, 1, .finite (mkRat 1 16777216)⟩) :=
  SZ3_fromOptions_getConfig stdSZ3Env ⟨0, 0, .nan⟩ 1 0 (.finite (mkRat 1 16777216))
    ⟨0, 1, .finite (mkRat 1 16777216)⟩ rfl (by decide) (by decide)

/-! ## The chunk loop of `CompressorBenchmark::run` -/

/-- The counted loop is the body applied to the indices
`chunkInx, chunkInx + 1, ...` in this order, stopping at the first failure. -/
theorem chunkLoop_eq_foldlM (b : CompressorBenchmark) (env : RunEnv) (data : List Nat)
    (remaining : Nat) (start : Nat) (st : LoopState) :
    CompressorBenchmark.chunkLoop b env data remaining (start : Int) st =
      List.foldlM (fun s (i : Nat) => CompressorBenchmark.loopBody b env data s (i : Int)) st
        (List.range' start remaining) := by
  induction remaining generalizing start st with
  | zero => rfl
  | succ r ih =>
    rw [List.range'_succ, List.foldlM_cons]
    unfold CompressorBenchmark.chunkLoop
    cases h : CompressorBenchmark.loopBody b env data st (start : Int) with
    | error f => rfl
    | ok st1 =>
      simp only [bind, Except.bind]
      have := ih (start + 1) st1
      push_cast at this
      exact this

/-- Ceiling of a quotient of natural numbers. -/
theorem ceil_div_eq (t c : Nat) (hc : 0 < c) :
    ⌈((t : ℚ) / (c : ℚ))⌉ = (((t + c - 1) / c : Nat) : Int) := by
  rw [Int.ceil_eq_iff]
  have hcq : (0 : ℚ) < (c : ℚ) := by exact_mod_cast hc
  have h1 : (t + c - 1) / c * c ≤ t + c - 1 := Nat.div_mul_le_self _ _
  have h2 : t + c - 1 < ((t + c - 1) / c + 1) * c := by
    have hm := Nat.mod_lt (t + c - 1) hc
    have hd := Nat.div_add_mod (t + c - 1) c
    have : ((t + c - 1) / c + 1) * c = c * ((t + c - 1) / c) + c := by ring
    omega
  generalize (t + c - 1) / c = q at h1 h2
  have h2' : t ≤ q * c := by
    have : (q + 1) * c = q * c + c := by ring
    omega
  have h1' : q * c < t + c := by omega
  constructor
  · rw [lt_div_iff₀ hcq]
    have : ((q * c : Nat) : ℚ) < ((t + c : Nat) : ℚ) := by exact_mod_cast h1'
    push_cast at this ⊢
    linarith
  · rw [div_le_iff₀ hcq]
    have : ((t : Nat) : ℚ) ≤ ((q * c : Nat) : ℚ) := by exact_mod_cast h2'
    push_cast at this ⊢
    linarith

/-- For a positive chunk size and a byte count in the range of `int`,
`numChunks` is the rounded-up quotient. -/
theorem numChunks_pos (totalBytes : Nat) (chunkSize : Int) (hcs : 1 ≤ chunkSize)
    (hr : (totalBytes : Int) ≤ INT_MAX) :
    CompressorBenchmark.numChunks totalBytes chunkSize =
      .ok (((totalBytes + chunkSize.toNat - 1) / chunkSize.toNat : Nat) : Int) := by
  unfold CompressorBenchmark.numChunks
  have h0 : chunkSize ≠ 0 := by omega
  have hpos : 0 < chunkSize := by omega
  have hc : 0 < chunkSize.toNat := by omega
  have hle : (totalBytes + chunkSize.toNat - 1) / chunkSize.toNat ≤ totalBytes := by
    rw [Nat.div_le_iff_le_mul_add_pred hc]
    have : totalBytes ≤ chunkSize.toNat * totalBytes := Nat.le_mul_of_pos_left _ hc
    omega
  unfold INT_MAX at hr
  simp only [h0, if_false, hpos, if_true, INT_MIN, INT_MAX]
  generalize (totalBytes + chunkSize.toNat - 1) / chunkSize.toNat = q at hle ⊢
  rw [if_neg (by omega)]

/-- The slice cut for the chunk of index `i` when the chunk size is `c` bytes
and the chunk starts inside the data: no overflow and no wrap-around occurs. -/
theorem chunkAt_nat (data : List Nat) (c i : Nat) (hc : (c : Int) ≤ INT_MAX)
    (hprod : ((i * c : Nat) : Int) ≤ INT_MAX) (hstart : i * c ≤ data.length * 4) :
    CompressorBenchmark.chunkAt data (c : Int) (i : Int) =
      if data.length < i * c / 4 + (min (i * c + c) (data.length * 4) - i * c) / 4 then
        .error (.undefined "iterator past the end of data")
      else
        .ok ((data.drop (i * c / 4)).take ((min (i * c + c) (data.length * 4) - i * c) / 4)) := by
  unfold INT_MAX at hc hprod
  unfold CompressorBenchmark.chunkAt
  have hmul : (i : Int) * (c : Int) = ((i * c : Nat) : Int) := by push_cast; rfl
  rw [hmul]
  generalize i * c = a at hprod hstart ⊢
  have hno : ¬ ((a : Int) < INT_MIN ∨ INT_MAX < (a : Int)) := by
    unfold INT_MIN INT_MAX; omega
  rw [if_neg hno]
  have hoff : ((a : Int) % (2 ^ 64 : Int)).toNat = a := by omega
  have hcs : ((c : Int) % (2 ^ 64 : Int)).toNat = c := by omega
  simp only [hoff, hcs]
  have hsum : (a + c) % 2 ^ 64 = a + c := Nat.mod_eq_of_lt (by omega)
  rw [hsum]
  have hsub : (min (a + c) (data.length * 4) + 2 ^ 64 - a) % 2 ^ 64 =
      min (a + c) (data.length * 4) - a := by
    have : a ≤ min (a + c) (data.length * 4) := by omega
    omega
  rw [hsub]

/-- Chunk sizes that are a multiple of four cut the data into consecutive
slices of `m` elements. -/
theorem chunkAt_aligned (data : List Nat) (m i : Nat) (hm : 1 ≤ m)
    (hcs : ((4 * m : Nat) : Int) ≤ INT_MAX) (hr : ((data.length * 4 : Nat) : Int) ≤ INT_MAX)
    (hi : i * m < data.length) :
    CompressorBenchmark.chunkAt data ((4 * m : Nat) : Int) (i : Int) =
      .ok ((data.drop (i * m)).take m) := by
  have hprod4 : i * (4 * m) = 4 * (i * m) := by ring
  rw [chunkAt_nat data (4 * m) i hcs (by unfold INT_MAX at *; rw [hprod4]; omega)
    (by rw [hprod4]; omega), hprod4]
  generalize i * m = a at hi ⊢
  have h1 : 4 * a / 4 = a := by omega
  have h2 : (min (4 * a + 4 * m) (data.length * 4) - 4 * a) / 4 = min m (data.length - a) := by
    omega
  rw [h1, h2, if_neg (by omega)]
  congr 1
  rw [List.take_eq_take, List.length_drop]
  omega

/-- Consecutive slices of `m` elements, enough of them to cover the list,
concatenate to the list. -/
theorem join_slices (m : Nat) (N : Nat) (data : List Nat)
    (hN : data.length ≤ N * m) :
    ((List.range N).map (fun i => (data.drop (i * m)).take m)).flatten = data := by
  induction N generalizing data with
  | zero =>
    have : data = [] := List.length_eq_zero.mp (by omega)
    subst this
    rfl
  | succ N ih =>
    rw [List.range_succ_eq_map, List.map_cons, List.map_map, List.flatten_cons]
    have hfun : ((fun i => List.take m (List.drop (i * m) data)) ∘ Nat.succ) =
        fun i => List.take m (List.drop (i * m) (data.drop m)) := by
      funext i
      simp only [Function.comp, List.drop_drop]
      congr 2
      rw [Nat.succ_mul]
      omega
    rw [hfun, ih (data.drop m)]
    · simp
    · rw [List.length_drop]
      have : (N + 1) * m = N * m + m := by ring
      omega

/-- Bounds on the rounded-up quotient `N = (n + m - 1) / m`. -/
theorem ceil_bounds (n m : Nat) (hm : 1 ≤ m) :
    n ≤ (n + m - 1) / m * m ∧ (n + m - 1) / m * m < n + m := by
  have h1 : (n + m - 1) / m * m ≤ n + m - 1 := Nat.div_mul_le_self _ _
  have hmod := Nat.mod_lt (n + m - 1) (show 0 < m by omega)
  have hd := Nat.div_add_mod (n + m - 1) m
  have : m * ((n + m - 1) / m) = (n + m - 1) / m * m := Nat.mul_comm _ _
  omega

/-- C16: for `chunkSize = 4m` with `m >= 1` and an input of `n` floats with `4n`
in the range of `int`, `run` cuts `ceil(n / m)` chunks; the chunk of index `i`
is the slice `data[i*m .. min((i+1)*m, n))`; every chunk but the last has `m`
elements and the last has `n - (ceil(n/m) - 1) * m`, between 1 and `m`; the
chunks concatenated in order are the input. -/
theorem chunks_aligned (data : List Nat) (m : Nat) (hm : 1 ≤ m)
    (hcs : ((4 * m : Nat) : Int) ≤ INT_MAX) (hr : ((data.length * 4 : Nat) : Int) ≤ INT_MAX) :
    CompressorBenchmark.numChunks (data.length * 4) ((4 * m : Nat) : Int) =
      .ok (((data.length + m - 1) / m : Nat) : Int) ∧
    (∀ i, i < (data.length + m - 1) / m →
      CompressorBenchmark.chunkAt data ((4 * m : Nat) : Int) (i : Int) =
        .ok ((data.drop (i * m)).take m) ∧
      ((data.drop (i * m)).take m).length = min ((i + 1) * m) data.length - i * m ∧
      (i + 1 < (data.length + m - 1) / m → ((data.drop (i * m)).take m).length = m) ∧
      (i + 1 = (data.length + m - 1) / m →
        ((data.drop (i * m)).take m).length = data.length - ((data.length + m - 1) / m - 1) * m ∧
        1 ≤ ((data.drop (i * m)).take m).length ∧ ((data.drop (i * m)).take m).length ≤ m)) ∧
    ((List.range ((data.length + m - 1) / m)).map
      (fun i => (data.drop (i * m)).take m)).flatten = data := by
  obtain ⟨hb1, hb2⟩ := ceil_bounds data.length m hm
  refine ⟨?_, ?_, join_slices m _ data hb1⟩
  · rw [numChunks_pos _ _ (by omega) hr]
    congr 2
    have h4 : ((4 * m : Nat) : Int).toNat = 4 * m := by omega
    have h5 : (data.length * 4 + 4 * m - 1) / 4 = data.length + m - 1 := by omega
    rw [h4, ← Nat.div_div_eq_div_mul, h5]
  · intro i hi
    have hle : (i + 1) * m ≤ (data.length + m - 1) / m * m := Nat.mul_le_mul_right m hi
    have hexp : (i + 1) * m = i * m + m := by ring
    have hlen : ((data.drop (i * m)).take m).length = min m (data.length - i * m) := by
      rw [List.length_take, List.length_drop]
    refine ⟨chunkAt_aligned data m i hm hcs hr (by omega), ?_, ?_, ?_⟩
    · rw [hlen]; omega
    · intro hi2
      have hle2 : (i + 1 + 1) * m ≤ (data.length + m - 1) / m * m := Nat.mul_le_mul_right m hi2
      have hexp2 : (i + 1 + 1) * m = i * m + m + m := by ring
      rw [hlen]; omega
    · intro hi3
      have hN : (data.length + m - 1) / m - 1 = i := by omega
      rw [hN, hlen]
      rw [← hi3] at hb1 hb2
      omega

/-- Witness for C16: `chunkSize = 1024` over 1000 floats gives four chunks of
256, 256, 256 and 232 floats. -/
theorem chunks_aligned_witness :
    CompressorBenchmark.numChunks ((List.replicate 1000 7).length * 4) ((4 * 256 : Nat) : Int)
      = .ok (4 : Nat) ∧
    (List.range 4).map (fun i => (((List.replicate 1000 7).drop (i * 256)).take 256).length)
      = [256, 256, 256, 232] ∧
    ((List.range 4).map (fun i => ((List.replicate 1000 7).drop (i * 256)).take 256)).flatten
      = List.replicate 1000 7 :=
  have h := chunks_aligned (List.replicate 1000 7) 256 (by decide) (by decide)
    (by rw [List.length_replicate]; decide)
  have hN : ((List.replicate 1000 7).length + 256 - 1) / 256 = 4 := by
    rw [List.length_replicate]
  ⟨by have h1 := h.1; rw [hN] at h1; exact h1,
    by
      have h0 := (h.2.1 0 (by rw [hN]; decide)).2.1
      have h1 := (h.2.1 1 (by rw [hN]; decide)).2.1
      have h2 := (h.2.1 2 (by rw [hN]; decide)).2.1
      have h3 := (h.2.1 3 (by rw [hN]; decide)).2.1
      simp only [List.length_replicate] at h0 h1 h2 h3
      simp only [List.range, List.range.loop, List.map_cons, List.map_nil]
      rw [h0, h1, h2, h3]
      rfl,
    by have h3 := h.2.2; rw [hN] at h3; exact h3⟩

/-! ## Degenerate runs and construction of the benchmark -/

/-- C15 (evaluation): with `chunkSize = 6` bytes over three floats and a codec
whose decode returns exactly the chunk it encoded, `run` cuts two chunks of one
float each, the first and the second float; the third float is never encoded and
the reconstruction buffer has two elements for an input of three. -/
theorem run_drops_trailing_floats :
    CompressorBenchmark.numChunks (([1, 2, 3] : List Nat).length * 4) 6 = .ok 2 ∧
    CompressorBenchmark.chunkAt [1, 2, 3] 6 0 = .ok [1] ∧
    CompressorBenchmark.chunkAt [1, 2, 3] 6 1 = .ok [2] ∧
    ((TruncCompressor.toCompressor storedZlib ⟨23, 5⟩).compress [1]).toOption.bind
      (fun cd => ((TruncCompressor.toCompressor storedZlib ⟨23, 5⟩).decompress cd).toOption)
      = some [1] ∧
    ((TruncCompressor.toCompressor storedZlib ⟨23, 5⟩).compress [2]).toOption.bind
      (fun cd => ((TruncCompressor.toCompressor storedZlib ⟨23, 5⟩).decompress cd).toOption)
      = some [2] ∧
    (CompressorBenchmark.runChunks ⟨TruncCompressor.toCompressor storedZlib ⟨23, 5⟩, 6⟩
      sampleRunEnv [1, 2, 3]).toOption.map (fun st => st.decompressedData) = some [1, 2] ∧
    ([1, 2] : List Nat).length ≠ ([1, 2, 3] : List Nat).length := by
  refine ⟨rfl, rfl, rfl, rfl, rfl, rfl, by decide⟩

/-- C17 (evaluation): on an empty input with `chunkSize = 1024` the loop of
`run` processes no chunk and leaves empty totals, and the rest of `run` then
dereferences the end iterator of the empty input (line 86): the run does not
return a result. -/
theorem run_empty_input_faults :
    CompressorBenchmark.numChunks (([] : List Nat).length * 4) 1024 = .ok 0 ∧
    (CompressorBenchmark.runChunks ⟨TruncCompressor.toCompressor storedZlib ⟨13, 5⟩, 1024⟩
      sampleRunEnv []).toOption.map (fun st => (st.totalCompressedBytes, st.decompressedData))
      = some (0, []) ∧
    (CompressorBenchmark.run ⟨TruncCompressor.toCompressor storedZlib ⟨13, 5⟩, 1024⟩
      sampleRunEnv [] false).toOption.isNone = true ∧
    (match CompressorBenchmark.run ⟨TruncCompressor.toCompressor storedZlib ⟨13, 5⟩, 1024⟩
        sampleRunEnv [] false with
      | .error f => f = .undefined "dereference of the end iterator of an empty vector"
      | .ok _ => False) := by
  refine ⟨rfl, rfl, rfl, ?_⟩
  show Failure.undefined _ = _
  rfl

/-- The rest of `run` on a non-empty input after a loop whose reconstruction
buffer has another length than the input. -/
theorem metrics_mismatch (env : RunEnv) (data : List Nat) (flag : Bool) (st : LoopState)
    (hne : data ≠ []) (hlen : st.decompressedData.length ≠ data.length) :
    ∃ r, CompressorBenchmark.metrics env data flag st = .ok r ∧
      r.MSE = .nan ∧ r.PSNR = .nan ∧ r.meanRelError = .nan ∧ r.maxRelError = .nan ∧
      r.meanAbsError = .nan ∧ r.maxAbsError = .nan ∧
      r.compressionRatio =
        F64.div round64 (F64.ofNat (data.length * 4)) (F64.ofNat st.totalCompressedBytes) ∧
      r.compressionThroughputMBps =
        F64.div round64
          (F64.div round64 (F64.ofNat (data.length * 4))
            (F64.mul round64 st.totalCompressionTimeMs (round64 (1 / 1000))))
          (F64.ofNat (1024 * 1024)) ∧
      r.decompressionThroughputMBps =
        F64.div round64
          (F64.div round64 (F64.ofNat (data.length * 4))
            (F64.mul round64 st.totalDecompressionTimeMs (round64 (1 / 1000))))
          (F64.ofNat (1024 * 1024)) := by
  cases data with
  | nil => exact absurd rfl hne
  | cons first rest =>
    have hnan_mean : CompressorBenchmark.meanOf [F64.nan] = .nan := by
      simp [CompressorBenchmark.meanOf, accumulate, F64.add, F64.div]
    have hnan_max : CompressorBenchmark.maxOf [F64.nan] = .nan := rfl
    unfold CompressorBenchmark.metrics
    simp only [if_neg hlen]
    refine ⟨_, rfl, rfl, ?_, hnan_mean, hnan_max, hnan_mean, hnan_max, rfl, rfl, rfl⟩
    simp [F64.lt]

/-- C18: for every non-empty input, when the loop over the chunks has completed
and the reconstruction buffer has another length than the input, `run` does not
fail: it returns a result whose MSE, PSNR, meanRelError, maxRelError,
meanAbsError and maxAbsError are NaN, while compressionRatio and the two
throughputs are computed from the totals accumulated by the loop. -/
theorem run_length_mismatch (b : CompressorBenchmark) (env : RunEnv) (data : List Nat)
    (flag : Bool) (st : LoopState) (hne : data ≠ [])
    (hloop : CompressorBenchmark.runChunks b env data = .ok st)
    (hlen : st.decompressedData.length ≠ data.length) :
    ∃ r, CompressorBenchmark.run b env data flag = .ok r ∧
      r.MSE = .nan ∧ r.PSNR = .nan ∧ r.meanRelError = .nan ∧ r.maxRelError = .nan ∧
      r.meanAbsError = .nan ∧ r.maxAbsError = .nan ∧
      r.compressionRatio =
        F64.div round64 (F64.ofNat (data.length * 4)) (F64.ofNat st.totalCompressedBytes) ∧
      r.compressionThroughputMBps =
        F64.div round64
          (F64.div round64 (F64.ofNat (data.length * 4))
            (F64.mul round64 st.totalCompressionTimeMs (round64 (1 / 1000))))
          (F64.ofNat (1024 * 1024)) ∧
      r.decompressionThroughputMBps =
        F64.div round64
          (F64.div round64 (F64.ofNat (data.length * 4))
            (F64.mul round64 st.totalDecompressionTimeMs (round64 (1 / 1000))))
          (F64.ofNat (1024 * 1024)) := by
  unfold CompressorBenchmark.run
  rw [hloop]
  exact metrics_mismatch env data flag st hne hlen

/-- Witness for C18: `chunkSize = 6` over three floats leaves a reconstruction
buffer of two floats, and `run` returns NaN error metrics with the ratio and
throughputs of the totals. -/
theorem run_length_mismatch_witness :
    ∃ r, CompressorBenchmark.run ⟨TruncCompressor.toCompressor storedZlib ⟨23, 5⟩, 6⟩
        sampleRunEnv [1, 2, 3] false = .ok r ∧
      r.MSE = .nan ∧ r.PSNR = .nan ∧ r.meanRelError = .nan ∧ r.maxRelError = .nan ∧
      r.meanAbsError = .nan ∧ r.maxAbsError = .nan ∧
      r.compressionRatio =
        F64.div round64 (F64.ofNat (([1, 2, 3] : List Nat).length * 4)) (F64.ofNat 8) ∧
      r.compressionThroughputMBps =
        F64.div round64
          (F64.div round64 (F64.ofNat (([1, 2, 3] : List Nat).length * 4))
            (F64.mul round64
              (F64.add round64 (F64.add round64 (.finite 0) (.finite 1)) (.finite 1))
              (round64 (1 / 1000))))
          (F64.ofNat (1024 * 1024)) ∧
      r.decompressionThroughputMBps =
        F64.div round64
          (F64.div round64 (F64.ofNat (([1, 2, 3] : List Nat).length * 4))
            (F64.mul round64
              (F64.add round64 (F64.add round64 (.finite 0) (.finite 1)) (.finite 1))
              (round64 (1 / 1000))))
          (F64.ofNat (1024 * 1024)) :=
  run_length_mismatch ⟨TruncCompressor.toCompressor storedZlib ⟨23, 5⟩, 6⟩ sampleRunEnv
    [1, 2, 3] false
    ⟨F64.add round64 (F64.add round64 (.finite 0) (.finite 1)) (.finite 1),
      F64.add round64 (F64.add round64 (.finite 0) (.finite 1)) (.finite 1), 8, [1, 2]⟩
    (by decide) rfl (by decide)

/-- C19: the constructor of `CompressorBenchmark` builds the codec from the
options: `BitTruncation` selects a `TruncCompressor` and `SZ3` an
`SZ3Compressor`, any other name raises, and an error raised by the codec
constructor leaves the benchmark constructor, so that no `CompressorBenchmark`
is produced; a `CompressorBenchmark` that exists holds the codec built there,
and `run`, which takes such a value, builds none. -/
theorem benchmark_construction (z : Zlib) (env : SZ3Env) (init : SZ3Compressor)
    (chunkSize : Int) (name : String) (options : ConfigMap) :
    (name = "BitTruncation" →
      CompressorBenchmark.new z env init chunkSize name options =
        match TruncCompressor.fromConfig options with
        | .ok c => .ok ⟨c.toCompressor z, chunkSize⟩
        | .error e => .error e) ∧
    (name = "SZ3" →
      CompressorBenchmark.new z env init chunkSize name options =
        match SZ3Compressor.fromOptions env init options with
        | .ok c => .ok ⟨c.toCompressor env, chunkSize⟩
        | .error e => .error e) ∧
    (name ≠ "BitTruncation" → name ≠ "SZ3" →
      CompressorBenchmark.new z env init chunkSize name options =
        .error (.invalid_argument ("Unknown compressor: " ++ name))) ∧
    (∀ e, (name = "BitTruncation" ∧ TruncCompressor.fromConfig options = .error e) ∨
        (name = "SZ3" ∧ SZ3Compressor.fromOptions env init options = .error e) →
      CompressorBenchmark.new z env init chunkSize name options = .error e) ∧
    (∀ b, CompressorBenchmark.new z env init chunkSize name options = .ok b →
      b.chunkSize_ = chunkSize ∧
      ((name = "BitTruncation" ∧
          ∃ c, TruncCompressor.fromConfig options = .ok c ∧ b.compressor_ = c.toCompressor z) ∨
        (name = "SZ3" ∧
          ∃ c, SZ3Compressor.fromOptions env init options = .ok c ∧
            b.compressor_ = c.toCompressor env))) := by
  have hne : "SZ3" ≠ "BitTruncation" := by decide
  refine ⟨?_, ?_, ?_, ?_, ?_⟩
  · intro h
    subst h
    unfold CompressorBenchmark.new
    rw [if_pos rfl]
  · intro h
    subst h
    unfold CompressorBenchmark.new
    rw [if_neg hne, if_pos rfl]
  · intro h1 h2
    unfold CompressorBenchmark.new
    rw [if_neg h1, if_neg h2]
  · rintro e (⟨h, he⟩ | ⟨h, he⟩)
    · subst h
      unfold CompressorBenchmark.new
      rw [if_pos rfl, he]
    · subst h
      unfold CompressorBenchmark.new
      rw [if_neg hne, if_pos rfl, he]
  · intro b hb
    unfold CompressorBenchmark.new at hb
    by_cases h1 : name = "BitTruncation"
    · rw [if_pos h1] at hb
      cases hc : TruncCompressor.fromConfig options with
      | error e => rw [hc] at hb; cases hb
      | ok c =>
        rw [hc] at hb
        cases hb
        exact ⟨rfl, Or.inl ⟨h1, c, rfl, rfl⟩⟩
    · rw [if_neg h1] at hb
      by_cases h2 : name = "SZ3"
      · rw [if_pos h2] at hb
        cases hc : SZ3Compressor.fromOptions env init options with
        | error e => rw [hc] at hb; cases hb
        | ok c =>
          rw [hc] at hb
          cases hb
          exact ⟨rfl, Or.inr ⟨h2, c, rfl, rfl⟩⟩
      · rw [if_neg h2] at hb
        cases hb

/-- Examples for C19: an unknown name, an out-of-range option and a missing
option raise out of the constructor. -/
theorem benchmark_construction_examples :
    (CompressorBenchmark.new storedZlib sampleSZ3Env ⟨0, 0, .nan⟩ 1024 "zlib"
      [("compressionLevel", "5"), ("mantissaBits", "13")]).toOption.isNone = true ∧
    (CompressorBenchmark.new storedZlib sampleSZ3Env ⟨0, 0, .nan⟩ 1024 "BitTruncation"
      [("compressionLevel", "5"), ("mantissaBits", "24")]).toOption.isNone = true ∧
    (CompressorBenchmark.new storedZlib sampleSZ3Env ⟨0, 0, .nan⟩ 1024 "SZ3"
      [("algorithm", "1"), ("errorBoundMode", "0")]).toOption.isNone = true ∧
    (CompressorBenchmark.new storedZlib sampleSZ3Env ⟨0, 0, .nan⟩ 1024 "BitTruncation"
      [("compressionLevel", "5"), ("mantissaBits", "13")]).toOption.isSome = true :=
  ⟨rfl, rfl, rfl, rfl⟩

/-! ## Relative error, sign and exponent of a truncated value -/

/-- Absolute value of a normal pattern. -/
theorem abs_floatValue_normal (u : Nat) (he : expField u ≠ 0) :
    |floatValue u| =
      ((2 : ℚ) ^ 23 + (mantField u : ℚ)) * (2 : ℚ) ^ ((expField u : Int) - 150) := by
  unfold floatValue
  rw [if_neg he, abs_mul]
  have hsgn : |(if signBit u = 1 then (-1 : ℚ) else 1)| = 1 := by
    split <;> simp
  rw [hsgn, one_mul]
  apply abs_of_nonneg
  positivity

/-- Relative error of the loop body on a normal finite pattern. -/
theorem truncate_one_rel_error (k u : Nat) (hk : k ≤ 22) (hu : u < 2 ^ 32)
    (he1 : 1 ≤ expField u) (he2 : expField u ≤ 254)
    (hf : expField (truncate_one u (k : Int)) < 255) :
    |floatValue (truncate_one u (k : Int)) - floatValue u| ≤
      (1 : ℚ) / 2 ^ (k + 1) * |floatValue u| := by
  have he : expField u < 255 := by omega
  have hne : expField u ≠ 0 := by omega
  rw [truncate_one_finite u k hk hu he] at hf ⊢
  obtain ⟨a, b⟩ := round_in_binade u (23 - k) (by omega) (by omega)
  obtain ⟨_, _, hd⟩ := round_nearest u (23 - k) (by omega)
  rw [floatValue_sub_abs u _ hu he a b hf, if_neg hne, abs_floatValue_normal u hne]
  generalize (u + 2 ^ (23 - k - 1)) / 2 ^ (23 - k) * 2 ^ (23 - k) = t at hd ⊢
  have hdq : |(t : ℚ) - (u : ℚ)| ≤ ((2 ^ (23 - k - 1) : Nat) : ℚ) := by exact_mod_cast hd
  have hpow : ((2 ^ (23 - k - 1) : Nat) : ℚ) = (1 : ℚ) / 2 ^ (k + 1) * 2 ^ 23 := by
    have h23 : (2 : ℚ) ^ 23 = 2 ^ (23 - k - 1) * 2 ^ (k + 1) := by
      rw [← pow_add]; congr 1; omega
    rw [h23]
    push_cast
    field_simp
  have hE : (0 : ℚ) < (2 : ℚ) ^ ((expField u : Int) - 150) := by positivity
  have hm : (0 : ℚ) ≤ (mantField u : ℚ) := Nat.cast_nonneg _
  have hk0 : (0 : ℚ) < (1 : ℚ) / 2 ^ (k + 1) := by positivity
  calc (2 : ℚ) ^ ((expField u : Int) - 150) * |(t : ℚ) - (u : ℚ)|
      ≤ (2 : ℚ) ^ ((expField u : Int) - 150) * ((1 : ℚ) / 2 ^ (k + 1) * 2 ^ 23) := by
        apply mul_le_mul_of_nonneg_left _ hE.le
        rw [← hpow]; exact hdq
    _ ≤ (1 : ℚ) / 2 ^ (k + 1) *
          (((2 : ℚ) ^ 23 + (mantField u : ℚ)) * (2 : ℚ) ^ ((expField u : Int) - 150)) := by
        have : (1 : ℚ) / 2 ^ (k + 1) *
            (((2 : ℚ) ^ 23 + (mantField u : ℚ)) * (2 : ℚ) ^ ((expField u : Int) - 150)) -
            (2 : ℚ) ^ ((expField u : Int) - 150) * ((1 : ℚ) / 2 ^ (k + 1) * 2 ^ 23) =
            (1 : ℚ) / 2 ^ (k + 1) * (mantField u : ℚ) *
              (2 : ℚ) ^ ((expField u : Int) - 150) := by ring
        have hnn : (0 : ℚ) ≤ (1 : ℚ) / 2 ^ (k + 1) * (mantField u : ℚ) *
            (2 : ℚ) ^ ((expField u : Int) - 150) := by positivity
        linarith

/-- C21: for `mantissaBits = k` in [0,22] and every normal finite float `x`
(exponent field in [1,254]) whose truncation is finite, the truncated value `t`
satisfies `|t - x| <= 2^-(k+1) * |x|` in exact rational arithmetic. -/
theorem truncation_relative_error (k : Nat) (hk : k ≤ 22) (values : List Nat)
    (hv : ∀ u ∈ values, u < 2 ^ 32 ∧ 1 ≤ expField u ∧ expField u ≤ 254)
    (hf : ∀ t ∈ truncate_mantissas values (k : Int), expField t < 255) :
    List.Forall₂
      (fun (x t : Nat) =>
        |floatValue t - floatValue x| ≤ (1 : ℚ) / 2 ^ (k + 1) * |floatValue x|)
      values (truncate_mantissas values (k : Int)) := by
  rw [truncate_mantissas_eq_map values k (by omega)] at hf ⊢
  rw [List.forall₂_map_right_iff]
  apply List.forall₂_same.mpr
  intro u hu
  obtain ⟨h1, h2, h3⟩ := hv u hu
  exact truncate_one_rel_error k u hk h1 h2 h3 (hf _ (List.mem_map_of_mem _ hu))

/-- Witness for C21: `mantissaBits = 13` on `0x3FFFFFFF`, `0x40490FDB` and
`0xC0490FDB`. -/
theorem truncation_relative_error_witness :
    List.Forall₂
      (fun (x t : Nat) =>
        |floatValue t - floatValue x| ≤ (1 : ℚ) / 2 ^ (13 + 1) * |floatValue x|)
      [0x3FFFFFFF, 0x40490FDB, 0xC0490FDB]
      (truncate_mantissas [0x3FFFFFFF, 0x40490FDB, 0xC0490FDB] ((13 : Nat) : Int)) :=
  truncation_relative_error 13 (by decide) [0x3FFFFFFF, 0x40490FDB, 0xC0490FDB]
    (by decide) (by decide)

/-- Sign and exponent of the loop body on a finite pattern. -/
theorem truncate_one_fields (k u : Nat) (hk : k ≤ 22) (hu : u < 2 ^ 32)
    (he : expField u ≤ 254) :
    signBit (truncate_one u (k : Int)) = signBit u ∧
    (expField (truncate_one u (k : Int)) = expField u ∨
      (expField (truncate_one u (k : Int)) = expField u + 1 ∧
        mantField (truncate_one u (k : Int)) = 0)) := by
  rw [truncate_one_finite u k hk hu (by omega)]
  obtain ⟨a, b⟩ := round_in_binade u (23 - k) (by omega) (by omega)
  generalize (u + 2 ^ (23 - k - 1)) / 2 ^ (23 - k) * 2 ^ (23 - k) = t at a b ⊢
  unfold signBit expField mantField at *
  omega

/-- The largest finite patterns are rounded to the infinity of their sign. -/
theorem max_finite_to_infinity (k : Nat) (hk : k ≤ 22) :
    truncate_mantissas [0x7F7FFFFF, 0xFF7FFFFF] (k : Int) = [0x7F800000, 0xFF800000] := by
  interval_cases k <;> decide

/-- C22: for `mantissaBits = k` in [0,22] and every finite input (exponent field
`e <= 254`), `truncate_mantissas` keeps the sign bit and returns a pattern whose
exponent field is `e` or `e + 1`, with a zero mantissa in the second case: no
finite input changes sign or becomes a NaN. The largest finite patterns, whose
exponent field is 254, are rounded to the infinity of their sign. -/
theorem truncation_sign_exponent (k : Nat) (hk : k ≤ 22) (values : List Nat)
    (hv : ∀ u ∈ values, u < 2 ^ 32 ∧ expField u ≤ 254) :
    List.Forall₂
      (fun (u t : Nat) =>
        signBit t = signBit u ∧
        (expField t = expField u ∨ expField t = expField u + 1) ∧
        ¬ (expField t = 255 ∧ mantField t ≠ 0))
      values (truncate_mantissas values (k : Int)) ∧
    truncate_mantissas [0x7F7FFFFF, 0xFF7FFFFF] (k : Int) = [0x7F800000, 0xFF800000] ∧
    expField 0x7F7FFFFF = 254 ∧ expField 0xFF7FFFFF = 254 ∧
    expField 0x7F800000 = 255 ∧ mantField 0x7F800000 = 0 ∧
    expField 0xFF800000 = 255 ∧ mantField 0xFF800000 = 0 := by
  refine ⟨?_, max_finite_to_infinity k hk, by decide, by decide, by decide, by decide,
    by decide, by decide⟩
  rw [truncate_mantissas_eq_map values k (by omega), List.forall₂_map_right_iff]
  apply List.forall₂_same.mpr
  intro u hu
  obtain ⟨h1, h2⟩ := hv u hu
  obtain ⟨hs, hcase⟩ := truncate_one_fields k u hk h1 h2
  refine ⟨hs, ?_, ?_⟩
  · rcases hcase with h | ⟨h, _⟩
    · exact Or.inl h
    · exact Or.inr h
  · rintro ⟨h255, hm⟩
    rcases hcase with h | ⟨_, h0⟩
    · omega
    · exact hm h0

/-- Witness for C22: `mantissaBits = 13` on three finite patterns. -/
theorem truncation_sign_exponent_witness :
    List.Forall₂
      (fun (u t : Nat) =>
        signBit t = signBit u ∧
        (expField t = expField u ∨ expField t = expField u + 1) ∧
        ¬ (expField t = 255 ∧ mantField t ≠ 0))
      [0x3FFFFFFF, 0xC0490FDB, 0x7F7FFFFF]
      (truncate_mantissas [0x3FFFFFFF, 0xC0490FDB, 0x7F7FFFFF] ((13 : Nat) : Int)) ∧
    truncate_mantissas [0x7F7FFFFF, 0xFF7FFFFF] ((13 : Nat) : Int)
      = [0x7F800000, 0xFF800000] ∧
    expField 0x7F7FFFFF = 254 ∧ expField 0xFF7FFFFF = 254 ∧
    expField 0x7F800000 = 255 ∧ mantField 0x7F800000 = 0 ∧
    expField 0xFF800000 = 255 ∧ mantField 0xFF800000 = 0 :=
  truncation_sign_exponent 13 (by decide) [0x3FFFFFFF, 0xC0490FDB, 0x7F7FFFFF] (by decide)

/-! ## Non-finite inputs -/

/-- Clearing the low `s <= 23` bits of a pattern keeps its sign bit and its
exponent field, and leaves a zero mantissa exactly when the mantissa field was
below `2 ^ s`. -/
theorem fields_of_cleared (x s : Nat) (hs : s ≤ 23) :
    signBit (x / 2 ^ s * 2 ^ s) = signBit x ∧
    expField (x / 2 ^ s * 2 ^ s) = expField x ∧
    (mantField (x / 2 ^ s * 2 ^ s) = 0 ↔ mantField x < 2 ^ s) := by
  have hP : 0 < 2 ^ s := Nat.pos_pow_of_pos _ (by norm_num)
  have hd : 2 ^ s ∣ x / 2 ^ s * 2 ^ s := Nat.dvd_mul_left _ _
  have hle : x / 2 ^ s * 2 ^ s ≤ x := Nat.div_mul_le_self _ _
  have hgt : x < x / 2 ^ s * 2 ^ s + 2 ^ s := by
    have := Nat.div_add_mod x (2 ^ s)
    have := Nat.mod_lt x hP
    have : x / 2 ^ s * 2 ^ s = 2 ^ s * (x / 2 ^ s) := Nat.mul_comm _ _
    omega
  have hB : 2 ^ s ∣ x - x % 2 ^ 23 :=
    Dvd.dvd.trans (Nat.pow_dvd_pow 2 hs) (Nat.dvd_sub_mod x)
  have hmle : x % 2 ^ 23 ≤ x := Nat.mod_le _ _
  have hlow : x - x % 2 ^ 23 ≤ x / 2 ^ s * 2 ^ s := by
    by_contra hcon
    have := mult_gap _ _ _ hd hB (by omega)
    omega
  have hzero : x / 2 ^ s * 2 ^ s = x - x % 2 ^ 23 ↔ x % 2 ^ 23 < 2 ^ s := by
    constructor
    · intro h; omega
    · intro h
      by_contra hcon
      have := mult_gap _ _ _ hB hd (by omega)
      omega
  generalize x / 2 ^ s * 2 ^ s = t at *
  generalize 2 ^ s = P at *
  unfold signBit expField mantField
  refine ⟨by omega, by omega, ?_⟩
  rw [← hzero]
  omega

/-- The loop body on a pattern with exponent field 255 and mantissa field `m`:
the infinities are kept; the exponent field stays 255, with the sign, exactly
when `m < 2^23 - 2^(22-k)`; the result is a NaN exactly when moreover
`2^(22-k) <= m`. -/
theorem truncate_one_nonfinite (k u : Nat) (hk : k ≤ 22) (hu : u < 2 ^ 32)
    (he : expField u = 255) :
    (mantField u = 0 → truncate_one u (k : Int) = u) ∧
    (expField (truncate_one u (k : Int)) = 255 ↔ mantField u < 2 ^ 23 - 2 ^ (22 - k)) ∧
    (mantField u < 2 ^ 23 - 2 ^ (22 - k) →
      signBit (truncate_one u (k : Int)) = signBit u) ∧
    (expField (truncate_one u (k : Int)) = 255 ∧ mantField (truncate_one u (k : Int)) ≠ 0 ↔
      2 ^ (22 - k) ≤ mantField u ∧ mantField u < 2 ^ 23 - 2 ^ (22 - k)) := by
  rw [truncate_one_eq u k hk]
  obtain ⟨f1, f2, f3⟩ := fields_of_cleared ((u + 2 ^ (22 - k)) % 2 ^ 32) (23 - k) (by omega)
  have hP : 2 ^ (23 - k) = 2 * 2 ^ (22 - k) := by
    have := two_pow_pred (23 - k) (by omega)
    have h2 : 23 - k - 1 = 22 - k := by omega
    rwa [h2] at this
  have hh1 : 0 < 2 ^ (22 - k) := Nat.pos_pow_of_pos _ (by norm_num)
  have hh2 : 2 ^ (22 - k) ≤ 2 ^ 22 := Nat.pow_le_pow_right (by norm_num) (by omega)
  have hle : (u + 2 ^ (22 - k)) % 2 ^ 32 / 2 ^ (23 - k) * 2 ^ (23 - k) ≤
      (u + 2 ^ (22 - k)) % 2 ^ 32 := Nat.div_mul_le_self _ _
  have hfix : mantField u = 0 →
      (u + 2 ^ (22 - k)) % 2 ^ 32 / 2 ^ (23 - k) * 2 ^ (23 - k) = u := by
    intro hm
    have hdu : 2 ^ (23 - k) ∣ u := by
      have h23 : 2 ^ 23 ∣ u := by
        unfold mantField at hm
        exact Nat.dvd_of_mod_eq_zero hm
      exact Dvd.dvd.trans (Nat.pow_dvd_pow 2 (by omega)) h23
    have hlt : u + 2 ^ (22 - k) < 2 ^ 32 := by
      unfold expField mantField at *; omega
    rw [Nat.mod_eq_of_lt hlt]
    exact div_mul_unique _ _ _ hdu (by omega) (by omega)
  generalize hx : (u + 2 ^ (22 - k)) % 2 ^ 32 = x at *
  generalize x / 2 ^ (23 - k) * 2 ^ (23 - k) = t at *
  rw [hP] at f3
  generalize 2 ^ (22 - k) = h at *
  unfold signBit expField mantField at *
  refine ⟨hfix, ?_, ?_, ?_⟩
  · omega
  · omega
  · constructor
    · rintro ⟨h1, h2⟩
      have h3 : ¬ x % 2 ^ 23 < 2 * h := fun hc => h2 (f3.mpr hc)
      omega
    · rintro ⟨h1, h2⟩
      refine ⟨by omega, ?_⟩
      intro hc
      have := f3.mp hc
      omega

/-- C23 (counterexample): with `mantissaBits = 13` the NaN `0x7FFFFFFF` is mapped
to `0x80000000`, the negative zero, and the NaN `0x7F800001` to `0x7F800000`,
the positive infinity: neither result is a NaN and the first has exponent
field 0. -/
theorem nan_not_preserved :
    expField 0x7FFFFFFF = 255 ∧ mantField 0x7FFFFFFF ≠ 0 ∧
    expField 0x7F800001 = 255 ∧ mantField 0x7F800001 ≠ 0 ∧
    truncate_mantissas [0x7FFFFFFF, 0x7F800001] 13 = [0x80000000, 0x7F800000] ∧
    expField 0x80000000 = 0 ∧ mantField 0x80000000 = 0 ∧ signBit 0x80000000 = 1 ∧
    expField 0x7F800000 = 255 ∧ mantField 0x7F800000 = 0 := by
  decide

/-- C23 (amended): for `mantissaBits = k` in [0,22] and every input pattern with
exponent field 255 and mantissa field `m`: each infinity (`m = 0`) is mapped to
itself; the result has exponent field 255 exactly when `m < 2^23 - 2^(22-k)`,
and then it has the sign of the input; the result is a NaN exactly when
`2^(22-k) <= m < 2^23 - 2^(22-k)`. -/
theorem truncation_nonfinite (k : Nat) (hk : k ≤ 22) (values : List Nat)
    (hv : ∀ u ∈ values, u < 2 ^ 32 ∧ expField u = 255) :
    List.Forall₂
      (fun (u t : Nat) =>
        (mantField u = 0 → t = u) ∧
        (expField t = 255 ↔ mantField u < 2 ^ 23 - 2 ^ (22 - k)) ∧
        (mantField u < 2 ^ 23 - 2 ^ (22 - k) → signBit t = signBit u) ∧
        (expField t = 255 ∧ mantField t ≠ 0 ↔
          2 ^ (22 - k) ≤ mantField u ∧ mantField u < 2 ^ 23 - 2 ^ (22 - k)))
      values (truncate_mantissas values (k : Int)) := by
  rw [truncate_mantissas_eq_map values k (by omega), List.forall₂_map_right_iff]
  apply List.forall₂_same.mpr
  intro u hu
  exact truncate_one_nonfinite k u hk (hv u hu).1 (hv u hu).2

/-- Witness for C23 (amended): `mantissaBits = 13` on both infinities and on
three NaNs. -/
theorem truncation_nonfinite_witness :
    List.Forall₂
      (fun (u t : Nat) =>
        (mantField u = 0 → t = u) ∧
        (expField t = 255 ↔ mantField u < 2 ^ 23 - 2 ^ (22 - 13)) ∧
        (mantField u < 2 ^ 23 - 2 ^ (22 - 13) → signBit t = signBit u) ∧
        (expField t = 255 ∧ mantField t ≠ 0 ↔
          2 ^ (22 - 13) ≤ mantField u ∧ mantField u < 2 ^ 23 - 2 ^ (22 - 13)))
      [0x7F800000, 0xFF800000, 0x7FC00000, 0x7FFFFFFF, 0x7F800001]
      (truncate_mantissas [0x7F800000, 0xFF800000, 0x7FC00000, 0x7FFFFFFF, 0x7F800001]
        ((13 : Nat) : Int)) :=
  truncation_nonfinite 13 (by decide)
    [0x7F800000, 0xFF800000, 0x7FC00000, 0x7FFFFFFF, 0x7F800001] (by decide)

/-! ## Chunk slicing stays in range; setters keep the configuration valid -/

/-- A chunk index below the number of chunks starts strictly inside the data. -/
theorem index_mul_lt (t c i : Nat) (hc : 1 ≤ c) (hi : i < (t + c - 1) / c) : i * c < t := by
  obtain ⟨_, hb⟩ := ceil_bounds t c hc
  have hle : (i + 1) * c ≤ (t + c - 1) / c * c := Nat.mul_le_mul_right c hi
  have hexp : (i + 1) * c = i * c + c := by ring
  omega

/-- C24: for every input of `n` floats and every `chunkSize` in `[1, INT_MAX]`,
with `4n` in the range of `int`, each chunk cut by `run` is the slice of
`floor((end - offset) / 4)` elements that starts at index `floor(offset / 4)`,
with `offset = i * chunkSize` and `end = min(offset + chunkSize, 4n)`; start
plus count never exceeds `n`, and the next chunk starts at or after the end of
this one. -/
theorem chunks_in_range (data : List Nat) (c : Nat) (hc : 1 ≤ c) (hcmax : (c : Int) ≤ INT_MAX)
    (hr : ((data.length * 4 : Nat) : Int) ≤ INT_MAX) (i : Nat)
    (hi : i < (data.length * 4 + c - 1) / c) :
    CompressorBenchmark.numChunks (data.length * 4) (c : Int) =
      .ok (((data.length * 4 + c - 1) / c : Nat) : Int) ∧
    CompressorBenchmark.chunkAt data (c : Int) (i : Int) =
      .ok ((data.drop (i * c / 4)).take
        ((min (i * c + c) (data.length * 4) - i * c) / 4)) ∧
    i * c / 4 + (min (i * c + c) (data.length * 4) - i * c) / 4 ≤ data.length ∧
    i * c / 4 + (min (i * c + c) (data.length * 4) - i * c) / 4 ≤ (i + 1) * c / 4 := by
  have hlt := index_mul_lt (data.length * 4) c i hc hi
  have hexp : (i + 1) * c = i * c + c := by ring
  have hn := numChunks_pos (data.length * 4) (c : Int) (by omega) hr
  rw [Int.toNat_ofNat] at hn
  have hprod : ((i * c : Nat) : Int) ≤ INT_MAX := by
    unfold INT_MAX at *; omega
  have hchunk := chunkAt_nat data c i hcmax hprod (by omega)
  rw [hexp]
  generalize i * c = a at hlt hchunk ⊢
  have hin : a / 4 + (min (a + c) (data.length * 4) - a) / 4 ≤ data.length := by omega
  rw [if_neg (by omega)] at hchunk
  exact ⟨hn, hchunk, hin, by omega⟩

/-- Witness for C24: the second of the four chunks of 7 bytes cut from 7 floats. -/
theorem chunks_in_range_witness :
    CompressorBenchmark.numChunks (([1, 2, 3, 4, 5, 6, 7] : List Nat).length * 4) ((7 : Nat) : Int)
      = .ok (((([1, 2, 3, 4, 5, 6, 7] : List Nat).length * 4 + 7 - 1) / 7 : Nat) : Int) ∧
    CompressorBenchmark.chunkAt [1, 2, 3, 4, 5, 6, 7] ((7 : Nat) : Int) ((1 : Nat) : Int) =
      .ok ((([1, 2, 3, 4, 5, 6, 7] : List Nat).drop (1 * 7 / 4)).take
        ((min (1 * 7 + 7) (([1, 2, 3, 4, 5, 6, 7] : List Nat).length * 4) - 1 * 7) / 4)) ∧
    1 * 7 / 4 + (min (1 * 7 + 7) (([1, 2, 3, 4, 5, 6, 7] : List Nat).length * 4) - 1 * 7) / 4
      ≤ ([1, 2, 3, 4, 5, 6, 7] : List Nat).length ∧
    1 * 7 / 4 + (min (1 * 7 + 7) (([1, 2, 3, 4, 5, 6, 7] : List Nat).length * 4) - 1 * 7) / 4
      ≤ (1 + 1) * 7 / 4 :=
  chunks_in_range [1, 2, 3, 4, 5, 6, 7] 7 (by decide) (by decide) (by decide) 1 (by decide)

/-- C25: for every input with `4n <= 2^31 - 1` bytes and every `chunkSize` in
`[1, 2^31 - 1]`, the values of type `int` computed in `run` do not overflow:
`numChunks = ceil(4n / chunkSize)` is defined and lies in `[0, INT_MAX]`, and for
every chunk index `0 <= i < numChunks` the product `i * chunkSize` is strictly
less than `4n`, hence in the range of `int`, as is `i + 1`; no chunk ends in
undefined behaviour. -/
theorem run_no_int_overflow (data : List Nat) (chunkSize : Int) (hcs : 1 ≤ chunkSize)
    (hcmax : chunkSize ≤ 2 ^ 31 - 1) (hr : ((data.length * 4 : Nat) : Int) ≤ 2 ^ 31 - 1) :
    ∃ N : Int, CompressorBenchmark.numChunks (data.length * 4) chunkSize = .ok N ∧
      N = ⌈(((data.length * 4 : Nat) : ℚ) / (chunkSize : ℚ))⌉ ∧
      0 ≤ N ∧ N ≤ INT_MAX ∧
      ∀ i : Int, 0 ≤ i → i < N →
        i * chunkSize < ((data.length * 4 : Nat) : Int) ∧
        INT_MIN ≤ i * chunkSize ∧ i * chunkSize ≤ INT_MAX ∧ i + 1 ≤ INT_MAX ∧
        ∃ chunk, CompressorBenchmark.chunkAt data chunkSize i = .ok chunk := by
  obtain ⟨c, rfl⟩ : ∃ c : Nat, chunkSize = (c : Int) := ⟨chunkSize.toNat, by omega⟩
  have hc : 1 ≤ c := by omega
  have hr' : ((data.length * 4 : Nat) : Int) ≤ INT_MAX := by unfold INT_MAX; omega
  have hcmax' : (c : Int) ≤ INT_MAX := by unfold INT_MAX; omega
  have hn := numChunks_pos (data.length * 4) (c : Int) (by omega) hr'
  rw [Int.toNat_ofNat] at hn
  have hNle : (data.length * 4 + c - 1) / c ≤ data.length * 4 := by
    rw [Nat.div_le_iff_le_mul_add_pred (by omega)]
    have : data.length * 4 ≤ c * (data.length * 4) := Nat.le_mul_of_pos_left _ (by omega)
    omega
  refine ⟨_, hn, ?_, Int.ofNat_nonneg _, ?_, ?_⟩
  · rw [Int.cast_natCast, ceil_div_eq _ _ (by omega)]
  · unfold INT_MAX at *; omega
  · intro i hi0 hiN
    obtain ⟨j, rfl⟩ : ∃ j : Nat, i = (j : Int) := ⟨i.toNat, by omega⟩
    have hj : j < (data.length * 4 + c - 1) / c := by exact_mod_cast hiN
    have hlt := index_mul_lt (data.length * 4) c j hc hj
    have hmul : (j : Int) * (c : Int) = ((j * c : Nat) : Int) := by push_cast; rfl
    have hprod : ((j * c : Nat) : Int) ≤ INT_MAX := by unfold INT_MAX at *; omega
    have hchunk := chunkAt_nat data c j hcmax' hprod (by omega)
    rw [if_neg (by omega)] at hchunk
    rw [hmul]
    unfold INT_MIN INT_MAX at *
    refine ⟨by omega, by omega, by omega, by omega, _, hchunk⟩

/-- Witness for C25: 1000 floats in chunks of 1024 bytes. -/
theorem run_no_int_overflow_witness :
    ∃ N : Int, CompressorBenchmark.numChunks ((List.replicate 1000 0).length * 4) 1024 = .ok N ∧
      N = ⌈((((List.replicate 1000 0).length * 4 : Nat) : ℚ) / ((1024 : Int) : ℚ))⌉ ∧
      0 ≤ N ∧ N ≤ INT_MAX ∧
      ∀ i : Int, 0 ≤ i → i < N →
        i * 1024 < (((List.replicate 1000 0).length * 4 : Nat) : Int) ∧
        INT_MIN ≤ i * 1024 ∧ i * 1024 ≤ INT_MAX ∧ i + 1 ≤ INT_MAX ∧
        ∃ chunk, CompressorBenchmark.chunkAt (List.replicate 1000 0) 1024 i = .ok chunk :=
  run_no_int_overflow (List.replicate 1000 0) 1024 (by decide) (by decide)
    (by rw [List.length_replicate]; decide)

/-- The ranges of the two fields. -/
theorem valid_of_new (L M : Int) (c : TruncCompressor) (h : TruncCompressor.new L M = .ok c) :
    0 ≤ c.mantissaBits_ ∧ c.mantissaBits_ ≤ 23 ∧
    0 ≤ c.compressionLevel_ ∧ c.compressionLevel_ ≤ 9 := by
  unfold TruncCompressor.new at h
  simp only [bind, Except.bind, TruncCompressor.setCompressionLevel,
    TruncCompressor.setMantissaBits] at h
  by_cases hL : L < 0 ∨ L > 9
  · rw [if_pos hL] at h; cases h
  · rw [if_neg hL] at h
    simp only at h
    by_cases hM : M < 0 ∨ M > 23
    · rw [if_pos hM] at h; cases h
    · rw [if_neg hM] at h
      cases h
      simp only
      exact ⟨by omega, by omega, by omega, by omega⟩

/-- A setter call keeps the ranges of the two fields. -/
theorem afterCall_valid (c : TruncCompressor) (call : SetterCall)
    (h : 0 ≤ c.mantissaBits_ ∧ c.mantissaBits_ ≤ 23 ∧
      0 ≤ c.compressionLevel_ ∧ c.compressionLevel_ ≤ 9) :
    0 ≤ (c.afterCall call).mantissaBits_ ∧ (c.afterCall call).mantissaBits_ ≤ 23 ∧
    0 ≤ (c.afterCall call).compressionLevel_ ∧ (c.afterCall call).compressionLevel_ ≤ 9 := by
  cases call with
  | setMantissaBits v =>
    unfold TruncCompressor.afterCall TruncCompressor.setMantissaBits
    by_cases hv : v < 0 ∨ v > 23
    · simp only [if_pos hv]; exact h
    · simp only [if_neg hv]; exact ⟨by omega, by omega, h.2.2.1, h.2.2.2⟩
  | setCompressionLevel v =>
    unfold TruncCompressor.afterCall TruncCompressor.setCompressionLevel
    by_cases hv : v < 0 ∨ v > 9
    · simp only [if_pos hv]; exact h
    · simp only [if_neg hv]; exact ⟨h.1, h.2.1, by omega, by omega⟩

/-- A sequence of setter calls keeps the ranges of the two fields. -/
theorem afterCalls_valid (calls : List SetterCall) (c : TruncCompressor)
    (h : 0 ≤ c.mantissaBits_ ∧ c.mantissaBits_ ≤ 23 ∧
      0 ≤ c.compressionLevel_ ∧ c.compressionLevel_ ≤ 9) :
    0 ≤ (c.afterCalls calls).mantissaBits_ ∧ (c.afterCalls calls).mantissaBits_ ≤ 23 ∧
    0 ≤ (c.afterCalls calls).compressionLevel_ ∧ (c.afterCalls calls).compressionLevel_ ≤ 9 := by
  induction calls generalizing c with
  | nil => exact h
  | cons call rest ih =>
    unfold TruncCompressor.afterCalls
    rw [List.foldl_cons]
    exact ih (c.afterCall call) (afterCall_valid c call h)

/-- C26: every `TruncCompressor` obtained from either constructor and then
subjected to any sequence of setter calls has `mantissaBits_` in [0,23] and
`compressionLevel_` in [0,9]; a setter called with an out-of-range value raises
and leaves the object unchanged. Consequently the call of `truncate_mantissas`
in `compress` receives `mantissaBits` in [0,23], does not take the early return,
and when `mantissaBits < 23` its shift amounts `23 - mantissaBits` and
`23 - mantissaBits - 1` lie in [1,23] and [0,22]. -/
theorem setters_keep_ranges (c0 : TruncCompressor)
    (hc0 : (∃ L M, TruncCompressor.new L M = .ok c0) ∨
      (∃ config, TruncCompressor.fromConfig config = .ok c0))
    (calls : List SetterCall) (data : List Nat) :
    (0 ≤ (c0.afterCalls calls).mantissaBits_ ∧ (c0.afterCalls calls).mantissaBits_ ≤ 23 ∧
      0 ≤ (c0.afterCalls calls).compressionLevel_ ∧
      (c0.afterCalls calls).compressionLevel_ ≤ 9) ∧
    (∀ (c : TruncCompressor) (v : Int), v < 0 ∨ v > 23 →
      c.setMantissaBits v = .error (.invalid_argument "mantissaBits must be in [0,23]") ∧
      c.afterCall (.setMantissaBits v) = c) ∧
    (∀ (c : TruncCompressor) (v : Int), v < 0 ∨ v > 9 →
      c.setCompressionLevel v = .error (.invalid_argument "compressionLevel must be in [0,9]") ∧
      c.afterCall (.setCompressionLevel v) = c) ∧
    ¬ ((c0.afterCalls calls).mantissaBits_ < 0 ∨ (c0.afterCalls calls).mantissaBits_ > 23) ∧
    truncate_mantissas data (c0.afterCalls calls).mantissaBits_ =
      data.map (fun value => truncate_one value (c0.afterCalls calls).mantissaBits_) ∧
    ((c0.afterCalls calls).mantissaBits_ < 23 →
      1 ≤ intToU32 (23 - (c0.afterCalls calls).mantissaBits_) ∧
      intToU32 (23 - (c0.afterCalls calls).mantissaBits_) ≤ 23 ∧
      sub32 (intToU32 (23 - (c0.afterCalls calls).mantissaBits_)) 1 =
        intToU32 (23 - (c0.afterCalls calls).mantissaBits_) - 1 ∧
      sub32 (intToU32 (23 - (c0.afterCalls calls).mantissaBits_)) 1 ≤ 22) := by
  have h0 : 0 ≤ c0.mantissaBits_ ∧ c0.mantissaBits_ ≤ 23 ∧
      0 ≤ c0.compressionLevel_ ∧ c0.compressionLevel_ ≤ 9 := by
    rcases hc0 with ⟨L, M, h⟩ | ⟨config, h⟩
    · exact valid_of_new L M c0 h
    · obtain ⟨_, _, L, M, _, _, _, _, h5, h6, h7, h8, h9⟩ :=
        (fromConfig_eq_ok_iff config c0).mp h
      subst h9
      exact ⟨h7, h8, h5, h6⟩
  have hv := afterCalls_valid calls c0 h0
  have hguard : ¬ ((c0.afterCalls calls).mantissaBits_ < 0 ∨
      (c0.afterCalls calls).mantissaBits_ > 23) := by omega
  refine ⟨hv, ?_, ?_, hguard, ?_, ?_⟩
  · intro c v hvr
    unfold TruncCompressor.afterCall TruncCompressor.setMantissaBits
    simp only [if_pos hvr, and_self]
  · intro c v hvr
    unfold TruncCompressor.afterCall TruncCompressor.setCompressionLevel
    simp only [if_pos hvr, and_self]
  · unfold truncate_mantissas
    rw [if_neg hguard]
  · intro hlt
    generalize (c0.afterCalls calls).mantissaBits_ = mb at hv hlt ⊢
    unfold intToU32 sub32 UINT32_MOD
    omega

/-- Witness for C26: the codec built from the values 5 and 13, then three setter
calls, two of them out of range. -/
theorem setters_keep_ranges_witness :
    (0 ≤ (TruncCompressor.afterCalls ⟨13, 5⟩
        [.setMantissaBits 24, .setCompressionLevel 3, .setMantissaBits (-1)]).mantissaBits_ ∧
      (TruncCompressor.afterCalls ⟨13, 5⟩
        [.setMantissaBits 24, .setCompressionLevel 3, .setMantissaBits (-1)]).mantissaBits_
        ≤ 23 ∧
      0 ≤ (TruncCompressor.afterCalls ⟨13, 5⟩
        [.setMantissaBits 24, .setCompressionLevel 3,
          .setMantissaBits (-1)]).compressionLevel_ ∧
      (TruncCompressor.afterCalls ⟨13, 5⟩
        [.setMantissaBits 24, .setCompressionLevel 3,
          .setMantissaBits (-1)]).compressionLevel_ ≤ 9) ∧
    TruncCompressor.afterCalls ⟨13, 5⟩
      [.setMantissaBits 24, .setCompressionLevel 3, .setMantissaBits (-1)] = ⟨13, 3⟩ :=
  ⟨(setters_keep_ranges ⟨13, 5⟩ (Or.inl ⟨5, 13, rfl⟩)
      [.setMantissaBits 24, .setCompressionLevel 3, .setMantissaBits (-1)] []).1, rfl⟩

end ROOTLess
